import Mathlib

/-!
Shallow embedding of the CPU-Cache-Simulator repository
(`cache.py`, `cache_set.py`, `cache_block.py`, `tag_queue.py`, `cache_sim.py`)
and proofs about the claims of its specification.

Modelling conventions:
* Python `bytearray`s become `List Nat` (each entry a byte value).
* Python `int` tags (with the `-1` sentinel) become `Int`.
* Python list indexing `l[i]` with a possibly negative index `i`
  (the code does use `blocks[-1]` via a stale index) is modelled by
  `pyGet` / `pySet`, which implement Python's negative-index semantics.
* Out-of-range reads use `getD` defaults; every proved statement only
  concerns in-range accesses, where the two semantics agree.
* `int(math.log(n, 2))` becomes `Nat.log 2 n`; the two agree on every
  argument appearing in this development (small exact powers and small
  composites, where the float logarithm is exact enough to truncate
  identically).
* `math.pow(2, k)` arithmetic in `split_address` is exact for the
  address widths involved, so it is modelled by exact natural
  arithmetic on `2 ^ k`.
-/

namespace CacheSim

/-- One cache line, mirroring `cache_block.CacheBlock`:
occupancy flag, dirty flag, tag (with `-1` sentinel) and the stored word
(a byte list; `bytearray(block_size / 8)` at construction). -/
structure CacheBlock where
  occupied : Bool
  dirty : Bool
  tag : Int
  word : List Nat
  deriving Repr, DecidableEq

instance : Inhabited CacheBlock := ⟨⟨false, false, -1, []⟩⟩

/-- A fresh block, as built by `CacheBlock.__init__` for a block of
`block_size` bits: unoccupied, clean, sentinel tag, zeroed byte array of
`block_size / 8` bytes. -/
def CacheBlock.init (block_size : Nat) : CacheBlock :=
  ⟨false, false, -1, List.replicate (block_size / 8) 0⟩

/-- `CacheBlock.get_word_dec`: little-endian decimal value of the first
four bytes of the stored word. -/
def CacheBlock.get_word_dec (b : CacheBlock) : Nat :=
  b.word.getD 0 0 + 256 * (b.word.getD 1 0 + 256 * (b.word.getD 2 0 + 256 * b.word.getD 3 0))

/-- `CacheBlock.read_from_memory(address, tag)`: mark occupied, set the
tag, and copy bytes `address .. address+3` of the backing store into
positions `0..3` of the word (later positions, if any, keep their old
content, exactly as the Python loop does). The dirty flag is NOT
touched. -/
def CacheBlock.read_from_memory (b : CacheBlock) (mem : List Nat) (address : Nat) (tag : Int) :
    CacheBlock :=
  { b with
    occupied := true
    tag := tag
    word := ((((b.word.set 0 (mem.getD address 0)).set 1 (mem.getD (address + 1) 0)).set 2
        (mem.getD (address + 2) 0)).set 3 (mem.getD (address + 3) 0)) }

/-- `CacheBlock.read_from_cache(tag)`: refresh tag and occupancy. -/
def CacheBlock.read_from_cache (b : CacheBlock) (tag : Int) : CacheBlock :=
  { b with tag := tag, occupied := true }

/-- `CacheBlock.write_to_memory(address)`: store bytes `0..3` of the
block's word into the backing store at `address .. address+3`. -/
def CacheBlock.write_to_memory (b : CacheBlock) (mem : List Nat) (address : Nat) : List Nat :=
  (((mem.set address (b.word.getD 0 0)).set (address + 1) (b.word.getD 1 0)).set (address + 2)
      (b.word.getD 2 0)).set (address + 3) (b.word.getD 3 0)

/-- `CacheBlock.write_to_cache(word)`: the stored word is replaced by the
given byte array (`self.word = word`). -/
def CacheBlock.write_to_cache (b : CacheBlock) (word : List Nat) : CacheBlock :=
  { b with word := word }

/-- `CacheBlock.clear_block()`: reset to unoccupied, clean, sentinel tag,
and a fresh four-byte zero word (the Python code always resets to
`bytearray(4)`, whatever the block size). -/
def CacheBlock.clear_block (_b : CacheBlock) : CacheBlock :=
  ⟨false, false, -1, List.replicate 4 0⟩

/-- `TagQueue.update_queue(tag)` on the queue's list, for a queue whose
list length equals its fixed size (an invariant of every run): if the tag
is present, its first occurrence is removed and the tag is appended at
the most-recent end; otherwise the front (least-recent) entry is popped
and the tag is appended. -/
def update_queue (q : List Int) (tag : Int) : List Int :=
  if tag ∈ q then q.erase tag ++ [tag] else q.tail ++ [tag]

/-- `TagQueue.get_least_recently_used()`: the front of the queue. -/
def get_least_recently_used (q : List Int) : Int :=
  q.headD (-1)

/-- First index of a block satisfying `p`, or `none`
(the scan order of the Python `for` loops). -/
def findIdxP (p : CacheBlock → Bool) : List CacheBlock → Option Nat
  | [] => none
  | b :: bs => if p b then some 0 else (findIdxP p bs).map (· + 1)

/-- `CacheSet.find_block_index(tag)`: index of the first occupied block
holding `tag`, else `-1`. -/
def find_block_index (blocks : List CacheBlock) (tag : Int) : Int :=
  match findIdxP (fun b => b.tag == tag && b.occupied) blocks with
  | some i => (i : Int)
  | none => -1

/-- Python list indexing with possibly negative index
(`l[-1]` is the last element). Out-of-range indices return the default
element; no proved statement depends on that case. -/
def pyIdx (n : Nat) (i : Int) : Nat :=
  if 0 ≤ i then i.toNat else n - (-i).toNat

def pyGet (l : List CacheBlock) (i : Int) : CacheBlock :=
  l.getD (pyIdx l.length i) default

def pySet (l : List CacheBlock) (i : Int) (b : CacheBlock) : List CacheBlock :=
  l.set (pyIdx l.length i) b

/-- `cache_set.find_range(address, block_size)`: the lowest and highest
addresses of the `block_size`-aligned range containing `address`. -/
def find_range (address block_size : Nat) : Nat × Nat :=
  (block_size * (address / block_size), block_size * (address / block_size) + (block_size - 1))

/-- The cache configuration handed to `Cache.__init__`
(sizes in bits, exactly as in the source). -/
structure Config where
  address_size : Nat
  cache_size : Nat
  block_size : Nat
  associativity : Nat
  write_back : Bool
  deriving Repr, DecidableEq

/-- `self.num_blocks = int(self.cache_size / self.block_size)`. Total as
a Lean function; the `block_size = 0` case, where this Python line
raises `ZeroDivisionError`, is the first guard of `mkCacheChecked`
below, and no theorem relies on the totalized value there. -/
def Config.num_blocks (c : Config) : Nat := c.cache_size / c.block_size

/-- `self.num_sets = int(self.num_blocks / self.associativity)`. Total;
the `associativity = 0` case, where this Python line raises
`ZeroDivisionError`, is a guard of `mkCacheChecked` below. -/
def Config.num_sets (c : Config) : Nat := c.num_blocks / c.associativity

/-- `self.num_blocks_per_set = int(self.num_blocks / self.num_sets)`.
Total; the `num_sets = 0` case, where this Python line raises
`ZeroDivisionError`, is a guard of `mkCacheChecked` below. -/
def Config.num_blocks_per_set (c : Config) : Nat := c.num_blocks / c.num_sets

/-- Fuel-driven floor base-2 logarithm, structurally recursive so that
concrete instances reduce inside the kernel. -/
def floorLog2Aux : Nat → Nat → Nat
  | 0, _ => 0
  | fuel + 1, n => if n < 2 then 0 else floorLog2Aux fuel (n / 2) + 1

/-- `int(math.log(n, 2))`: the floor base-2 logarithm
(`floorLog2 n = Nat.log 2 n`, proved below). -/
def floorLog2 (n : Nat) : Nat := floorLog2Aux n n

/-- `self.index_size = int(math.log(self.num_sets, 2))`. Total; at
`num_sets = 0` Python's `math.log` would raise `ValueError`, but the
preceding `num_blocks_per_set` line already raises there — the
`num_sets = 0` guard of `mkCacheChecked` covers both. -/
def Config.index_size (c : Config) : Nat := floorLog2 c.num_sets

/-- `self.block_offset_size = int(math.log(self.block_size, 2))`. Total;
at `block_size = 0` Python's `math.log` would raise `ValueError`, but
the `num_blocks` line already raises there — the `block_size = 0` guard
of `mkCacheChecked` covers both. -/
def Config.block_offset_size (c : Config) : Nat := floorLog2 c.block_size

/-- `self.tag_size = int(self.address_size - (index_size + block_offset_size))`
(may be negative, hence an integer). -/
def Config.tag_size (c : Config) : Int :=
  (c.address_size : Int) - ((c.index_size : Int) + (c.block_offset_size : Int))

/-- `Cache.split_address(address)`: block offset, set index, and tag,
computed with the configured bit-field widths. -/
def split_address (c : Config) (address : Nat) : Nat × Nat × Nat :=
  (address % 2 ^ c.block_offset_size,
   address / 2 ^ c.block_offset_size % 2 ^ c.index_size,
   address / 2 ^ c.block_offset_size / 2 ^ c.index_size)

/-- The mutable state of `cache_set.CacheSet`: its blocks, the tag
queue's list, and the scratch fields `evicted_tag`,
`evicted_block_index`, `last_write_address` and `set_index`. The
configuration fields (`write_back`, `num_blocks`, `block_size`) are
passed to the operations instead of being stored. -/
structure SetState where
  blocks : List CacheBlock
  queue : List Int
  evicted_tag : Int
  evicted_block_index : Int
  last_write_address : Int
  set_index : Nat
  deriving Repr, DecidableEq

instance : Inhabited SetState := ⟨⟨[], [], -1, -1, -1, 0⟩⟩

/-- A fresh set, as built by `CacheSet.__init__` for set `i`:
`num_blocks` empty blocks and a queue of `num_blocks` sentinel tags. -/
def SetState.init (num_blocks block_size i : Nat) : SetState :=
  ⟨List.replicate num_blocks (CacheBlock.init block_size),
   List.replicate num_blocks (-1), -1, -1, -1, i⟩

/-- Result of `CacheSet.replace_cache_block`: new memory, new set state,
the reported write-back range (`none` when no flush happened), the
eviction details, and the block just filled. -/
structure ReplaceOut where
  mem : List Nat
  set : SetState
  wbRange : Option (Nat × Nat)
  evict : Int × Int
  filled : CacheBlock

/-- `CacheSet.replace_cache_block(address, tag)`: pick the least
recently used tag, locate its block; in write-back mode, if that block
is dirty, write the block's word to the backing store AT THE INCOMING
ADDRESS (`least_recently_used_block.write_to_memory(address)` in the
source) and record `last_write_address`; then clear the block and
refill it from (the possibly just-flushed) memory at the incoming
address with the new tag. The scratch eviction fields are NOT updated by
this method in the source. -/
def replace_cache_block (wb : Bool) (block_size : Nat) (mem : List Nat) (s : SetState)
    (address : Nat) (tag : Int) : ReplaceOut :=
  let lru_tag := get_least_recently_used s.queue
  let lru_index := find_block_index s.blocks lru_tag
  let lru_block := pyGet s.blocks lru_index
  let flush := wb && lru_block.dirty
  let mem1 := if flush then lru_block.write_to_memory mem address else mem
  let filled := (lru_block.clear_block).read_from_memory mem1 address tag
  { mem := mem1
    set := { s with
      blocks := pySet s.blocks lru_index filled
      last_write_address := if flush then (address : Int) else s.last_write_address }
    wbRange := if flush then some (find_range address block_size) else none
    evict := (lru_tag, lru_index)
    filled := filled }

/-- Result pieces of a set-level read
(the dictionary keys the claims are about). -/
structure SetReadOut where
  mem : List Nat
  set : SetState
  word : Nat
  replace : Option (Int × Int)
  wbRange : Option (Nat × Nat)

/-- `CacheSet.read_from_memory(address, tag, offset)`: reset
`last_write_address`, fill the first free block if one exists (no
eviction), otherwise replace the least-recently-used block; then touch
the tag queue with the incoming tag. -/
def set_read_from_memory (wb : Bool) (block_size : Nat) (mem : List Nat) (s0 : SetState)
    (address : Nat) (tag : Int) : SetReadOut :=
  let s := { s0 with last_write_address := -1 }
  match findIdxP (fun b => !b.occupied) s.blocks with
  | some i =>
      let filled := (s.blocks.getD i default).read_from_memory mem address tag
      let s1 := { s with
        blocks := s.blocks.set i filled, evicted_tag := -1, evicted_block_index := -1 }
      { mem := mem
        set := { s1 with queue := update_queue s1.queue tag }
        word := filled.get_word_dec
        replace := none
        wbRange := none }
  | none =>
      let r := replace_cache_block wb block_size mem s address tag
      { mem := r.mem
        set := { r.set with queue := update_queue r.set.queue tag }
        word := r.filled.get_word_dec
        replace := some r.evict
        wbRange := r.wbRange }

/-- `CacheSet.read_from_cache(address, tag, block_index, offset)`:
refresh the found block's bookkeeping, touch the tag queue, and report
the block's word. The backing store is untouched. -/
def set_read_from_cache (s : SetState) (tag : Int) (block_index : Int) : SetState × Nat :=
  let b := pyGet s.blocks block_index
  let b1 := b.read_from_cache tag
  ({ s with blocks := pySet s.blocks block_index b1, queue := update_queue s.queue tag },
   b1.get_word_dec)

/-- `CacheSet.write_to_cache(address, tag, block_index, offset, word,
write_back)` merged with `write_to_cache_wb` / `write_to_cache_wt`:
write-back mode overwrites the block's word and sets its dirty bit,
reporting `write_back = True`; write-through mode overwrites the word
and immediately stores it to the backing store at `address`, reporting
`write_back = False`. The tag queue is not touched. -/
def set_write_to_cache (wb : Bool) (mem : List Nat) (s : SetState) (address : Nat)
    (block_index : Int) (word : List Nat) : List Nat × SetState × Nat × Bool :=
  let b := pyGet s.blocks block_index
  if wb then
    let b1 := { b.write_to_cache word with dirty := true }
    (mem, { s with blocks := pySet s.blocks block_index b1 }, b1.get_word_dec, true)
  else
    let b1 := b.write_to_cache word
    let mem1 := b1.write_to_memory mem address
    (mem1, { s with blocks := pySet s.blocks block_index b1 }, b1.get_word_dec, false)

/-- Full cache state: the backing store and the sets. -/
structure CacheState where
  mem : List Nat
  sets : List SetState
  deriving Repr, DecidableEq

/-- `Cache.__init__`: derive the geometry and build `num_sets` fresh
sets (no validation of any kind is performed in the source); the value
produced on the non-raising paths. -/
def mkCache (c : Config) (mem : List Nat) : CacheState :=
  { mem := mem
    sets := (List.range c.num_sets).map
      (fun i => SetState.init c.num_blocks_per_set c.block_size i) }

/-- `Cache.__init__` including its raising paths: Python's constructor
raises an uncaught arithmetic error (a `ZeroDivisionError` from the
derived-parameter divisions, never a descriptive configuration error)
exactly when `block_size = 0`, `associativity = 0`, or the derived
`num_sets` is 0 (block count smaller than the associativity); `none`
models that raise. Every other configuration, however invalid, returns
the complete cache of `mkCache`. -/
def mkCacheChecked (c : Config) (mem : List Nat) : Option CacheState :=
  if c.block_size = 0 ∨ c.associativity = 0 ∨ c.num_sets = 0 then none
  else some (mkCache c mem)

/-- Result record of `Cache.read`. -/
structure ReadResult where
  hit : Bool
  word : Nat
  replace : Option (Int × Int)
  wbRange : Option (Nat × Nat)
  deriving Repr, DecidableEq

/-- Result record of `Cache.write`. -/
structure WriteResult where
  hit : Bool
  word : Nat
  write_back : Bool
  deriving Repr, DecidableEq

/-- `Cache.read(address)`: split the address, dispatch to the indexed
set, and classify hit (tag resident) or miss (fill from memory). -/
def cacheRead (c : Config) (st : CacheState) (address : Nat) : CacheState × ReadResult :=
  let p := split_address c address
  let idx := p.2.1
  let tag : Int := p.2.2
  let s := st.sets.getD idx default
  let bi := find_block_index s.blocks tag
  if bi == -1 then
    let r := set_read_from_memory c.write_back c.block_size st.mem s address tag
    ({ mem := r.mem, sets := st.sets.set idx r.set },
     { hit := false, word := r.word, replace := r.replace, wbRange := r.wbRange })
  else
    let r := set_read_from_cache s tag bi
    ({ mem := st.mem, sets := st.sets.set idx r.1 },
     { hit := true, word := r.2, replace := none, wbRange := none })

/-- `Cache.write(address, word)`: split the address; on a miss first
fill the line via `read_from_memory`; then call `write_to_cache` WITH
THE STALE `block_index` computed before the fill (`-1` on a miss, which
Python resolves to the set's last block). -/
def cacheWrite (c : Config) (st : CacheState) (address : Nat) (word : List Nat) :
    CacheState × WriteResult :=
  let p := split_address c address
  let idx := p.2.1
  let tag : Int := p.2.2
  let s := st.sets.getD idx default
  let bi := find_block_index s.blocks tag
  let hit := !(bi == -1)
  let fill :=
    if bi == -1 then
      let r := set_read_from_memory c.write_back c.block_size st.mem s address tag
      (r.mem, r.set)
    else (st.mem, s)
  let w := set_write_to_cache c.write_back fill.1 fill.2 address bi word
  ({ mem := w.1, sets := st.sets.set idx w.2.1 },
   { hit := hit, word := w.2.2.1, write_back := w.2.2.2 })

/-- The set state produced for the accessed index by `Cache.read`
(the two branches of the dispatch, factored out for reasoning). -/
def readTargetSet (c : Config) (st : CacheState) (address : Nat) : SetState :=
  let p := split_address c address
  let s := st.sets.getD p.2.1 default
  let bi := find_block_index s.blocks (p.2.2 : Int)
  if bi == -1 then
    (set_read_from_memory c.write_back c.block_size st.mem s address (p.2.2 : Int)).set
  else
    (set_read_from_cache s (p.2.2 : Int) bi).1

/-- The set state produced for the accessed index by `Cache.write`. -/
def writeTargetSet (c : Config) (st : CacheState) (address : Nat) (word : List Nat) : SetState :=
  let p := split_address c address
  let s := st.sets.getD p.2.1 default
  let bi := find_block_index s.blocks (p.2.2 : Int)
  let fill :=
    if bi == -1 then
      let r := set_read_from_memory c.write_back c.block_size st.mem s address (p.2.2 : Int)
      (r.mem, r.set)
    else (st.mem, s)
  (set_write_to_cache c.write_back fill.1 fill.2 address bi word).2.1

/-- `cache_sim.int_to_bytearray(num)`: four little-endian bytes. -/
def int_to_bytearray (num : Nat) : List Nat :=
  [num % 256, num / 256 % 256, num / 256 ^ 2 % 256, num / 256 ^ 3 % 256]

/-- `self.memory_size = int(math.pow(2, address_size))`. -/
def Config.memory_size (c : Config) : Nat := 2 ^ c.address_size

/-- The initial backing store of `CacheSim.__init__`: byte `j` holds
byte `j mod 4` of the little-endian encoding of the word-aligned
address `4 * (j div 4)`. -/
def initMemory (c : Config) : List Nat :=
  (List.range c.memory_size).map (fun j => 4 * (j / 4) / 256 ^ (j % 4) % 256)

/-- The freshly constructed simulator state. -/
def initSim (c : Config) : CacheState := mkCache c (initMemory c)

/-- The validation performed by the `assert` statements of
`CacheSim.read` / `CacheSim.write`:
`address % 4 == 0` and `0 <= address <= memory_size` (note the
inclusive upper bound in the source). A failed assertion raises before
the cache is touched, so a rejected operation leaves the state
unchanged. -/
def simValid (c : Config) (address : Int) : Bool :=
  address % 4 == 0 && 0 ≤ address && address ≤ (c.memory_size : Int)

/-- One scripted operation of the simulation driver. -/
inductive Op where
  | read (address : Int)
  | write (address : Int) (word : Nat)
  deriving Repr, DecidableEq

/-- One driver step: validate, then run the cache operation; a rejected
operation leaves the state unchanged. -/
def step (c : Config) (st : CacheState) : Op → CacheState
  | .read a => if simValid c a then (cacheRead c st a.toNat).1 else st
  | .write a w => if simValid c a then (cacheWrite c st a.toNat (int_to_bytearray w)).1 else st

/-- Run a scripted sequence of operations from the fresh simulator. -/
def run (c : Config) (ops : List Op) : CacheState :=
  ops.foldl (step c) (initSim c)

/-- The states reached by repeatedly reading the same address. -/
def readSeq (c : Config) (a : Nat) (st : CacheState) : Nat → CacheState
  | 0 => st
  | n + 1 => (cacheRead c (readSeq c a st n) a).1

/-- The tags of the occupied blocks of a set, in slot order. -/
def occupiedTags (blocks : List CacheBlock) : List Int :=
  (blocks.filter (fun b => b.occupied)).map (fun b => b.tag)

/-- The structural tag-queue invariant of a set: the queue has the fixed
per-set capacity, it is a block of `-1` sentinels followed by the real
tags, the real tags are nonnegative and pairwise distinct, and they are
a permutation of the tags of the currently occupied blocks. -/
def SetInv (assoc : Nat) (s : SetState) : Prop :=
  s.blocks.length = assoc ∧ s.queue.length = assoc ∧
  ∃ sent real, s.queue = List.replicate sent (-1) ++ real ∧
    (∀ t ∈ real, 0 ≤ t) ∧ real.Nodup ∧ real.Perm (occupiedTags s.blocks)

/-- Every block of every set is clean. -/
def allClean (st : CacheState) : Prop :=
  ∀ s ∈ st.sets, ∀ b ∈ s.blocks, b.dirty = false

/-- A tiny direct-mapped write-back configuration: 7-bit addresses
(128 bytes of store), 64-bit cache, 32-bit blocks, associativity 1,
hence 2 sets of one block each. -/
def cfgA : Config := ⟨7, 64, 32, 1, true⟩

/-- A tiny 2-way write-back configuration: 7-bit addresses, 64-bit
cache, 32-bit blocks, associativity 2, hence a single set of two
blocks. -/
def cfgB : Config := ⟨7, 64, 32, 2, true⟩

/-- `cfgA` in write-through mode. -/
def cfgC : Config := ⟨7, 64, 32, 1, false⟩

/-- The configuration scripted in `main.py`: 16-bit addresses, 1024-bit
cache, 64-bit blocks, associativity 1, write-back. -/
def mainCfg : Config := ⟨16, 1024, 64, 1, true⟩

end CacheSim

namespace CacheSim

theorem floorLog2Aux_eq_log (fuel n : Nat) (h : n ≤ fuel) : floorLog2Aux fuel n = Nat.log 2 n := by
  induction fuel generalizing n with
  | zero =>
    interval_cases n
    simp [floorLog2Aux]
  | succ m ih =>
    rw [floorLog2Aux]
    by_cases h2 : n < 2
    · rw [if_pos h2, Nat.log_of_lt h2]
    · rw [if_neg h2, ih (n / 2) (by omega)]
      conv_rhs => rw [Nat.log]
      rw [dif_pos ⟨by omega, by omega⟩]

theorem floorLog2_eq_log (n : Nat) : floorLog2 n = Nat.log 2 n :=
  floorLog2Aux_eq_log n n le_rfl

theorem getD_set_self {α : Type} (l : List α) (i : Nat) (x d : α) (h : i < l.length) :
    (l.set i x).getD i d = x := by
  induction l generalizing i with
  | nil => simp at h
  | cons a t ih =>
    cases i with
    | zero => rfl
    | succ j => simpa using ih j (by simpa using h)

theorem getD_set_ne {α : Type} (l : List α) (i j : Nat) (x d : α) (h : i ≠ j) :
    (l.set i x).getD j d = l.getD j d := by
  induction l generalizing i j with
  | nil => rfl
  | cons a t ih =>
    cases i with
    | zero => cases j with
      | zero => exact absurd rfl h
      | succ j2 => rfl
    | succ i2 => cases j with
      | zero => rfl
      | succ j2 => simpa using ih i2 j2 (by omega)

theorem set_getD_self {α : Type} (l : List α) (i : Nat) (d : α) (h : i < l.length) :
    l.set i (l.getD i d) = l := by
  induction l generalizing i with
  | nil => rfl
  | cons a t ih =>
    cases i with
    | zero => rfl
    | succ j => simpa using ih j (by simpa using h)

theorem getD_append_length {α : Type} (l1 : List α) (b : α) (l2 : List α) (d : α) :
    (l1 ++ b :: l2).getD l1.length d = b := by
  induction l1 with
  | nil => rfl
  | cons a t ih => simpa using ih

theorem set_append_length {α : Type} (l1 : List α) (b x : α) (l2 : List α) :
    (l1 ++ b :: l2).set l1.length x = l1 ++ x :: l2 := by
  induction l1 with
  | nil => rfl
  | cons a t ih => simpa using ih

theorem getElemD_set_self {α : Type} (l : List α) (i : Nat) (x d : α) (h : i < l.length) :
    (l.set i x)[i]?.getD d = x := by
  rw [← List.getD_eq_getElem?_getD]; exact getD_set_self l i x d h

/-- The tag queue of a set after `read_from_memory` is the old queue
touched once with the incoming tag, in both the free-block and the
replacement branch. -/
theorem queue_set_read_from_memory (wb : Bool) (bs : Nat) (mem : List Nat) (s : SetState)
    (a : Nat) (tag : Int) :
    (set_read_from_memory wb bs mem s a tag).set.queue = update_queue s.queue tag := by
  unfold set_read_from_memory replace_cache_block
  cases hf : findIdxP (fun b => !b.occupied) s.blocks <;> simp [hf] <;> split <;> rfl

/-- The tag queue of a set after `read_from_cache` is the old queue
touched once with the incoming tag. -/
theorem queue_set_read_from_cache (s : SetState) (tag : Int) (bi : Int) :
    (set_read_from_cache s tag bi).1.queue = update_queue s.queue tag := rfl

/-- `write_to_cache` never touches the tag queue. -/
theorem queue_set_write_to_cache (wb : Bool) (mem : List Nat) (s : SetState) (a : Nat)
    (bi : Int) (w : List Nat) :
    (set_write_to_cache wb mem s a bi w).2.1.queue = s.queue := by
  unfold set_write_to_cache
  split <;> rfl

theorem getD_mem_or_default {α : Type} (l : List α) (n : Nat) (d : α) :
    l.getD n d ∈ l ∨ l.getD n d = d := by
  induction l generalizing n with
  | nil => simp
  | cons a t ih =>
    cases n with
    | zero => simp
    | succ m =>
      rcases ih m with h | h
      · exact Or.inl (List.mem_cons_of_mem a h)
      · exact Or.inr h

theorem dirty_getD_false (l : List CacheBlock) (n : Nat)
    (h : ∀ b ∈ l, b.dirty = false) : (l.getD n default).dirty = false := by
  rcases getD_mem_or_default l n default with h2 | h2
  · exact h _ h2
  · rw [h2]; rfl

/-- `read_from_memory` on a set never creates a dirty block: the filled
block inherits the free block's (clean) flag or the cleared block's
false flag. -/
theorem clean_set_read_from_memory (wb : Bool) (bs : Nat) (mem : List Nat) (s : SetState)
    (a : Nat) (tag : Int) (h : ∀ b ∈ s.blocks, b.dirty = false) :
    ∀ b ∈ (set_read_from_memory wb bs mem s a tag).set.blocks, b.dirty = false := by
  intro b hb
  unfold set_read_from_memory replace_cache_block at hb
  cases hf : findIdxP (fun b => !b.occupied) s.blocks with
  | none =>
    simp only [hf, pySet] at hb
    rcases List.mem_or_eq_of_mem_set hb with h1 | h1
    · exact h b h1
    · subst h1; rfl
  | some i =>
    simp only [hf] at hb
    rcases List.mem_or_eq_of_mem_set hb with h1 | h1
    · exact h b h1
    · subst h1
      exact dirty_getD_false s.blocks i h

/-- `read_from_cache` on a set never creates a dirty block. -/
theorem clean_set_read_from_cache (s : SetState) (tag : Int) (bi : Int)
    (h : ∀ b ∈ s.blocks, b.dirty = false) :
    ∀ b ∈ (set_read_from_cache s tag bi).1.blocks, b.dirty = false := by
  intro b hb
  simp only [set_read_from_cache, pySet] at hb
  rcases List.mem_or_eq_of_mem_set hb with h1 | h1
  · exact h b h1
  · subst h1
    exact dirty_getD_false s.blocks (pyIdx s.blocks.length bi) h

/-- In write-through mode `write_to_cache` never creates a dirty
block. -/
theorem clean_set_write_to_cache_wt (mem : List Nat) (s : SetState) (a : Nat)
    (bi : Int) (w : List Nat) (h : ∀ b ∈ s.blocks, b.dirty = false) :
    ∀ b ∈ (set_write_to_cache false mem s a bi w).2.1.blocks, b.dirty = false := by
  intro b hb
  have hbl : (set_write_to_cache false mem s a bi w).2.1.blocks =
      pySet s.blocks bi ((pyGet s.blocks bi).write_to_cache w) := rfl
  rw [hbl] at hb
  unfold pySet at hb
  rcases List.mem_or_eq_of_mem_set hb with h1 | h1
  · exact h b h1
  · subst h1
    exact dirty_getD_false s.blocks (pyIdx s.blocks.length bi) h

/-- The sets after `Cache.read`: only the accessed index is replaced,
by `readTargetSet`. -/
theorem cacheRead_sets_eq (c : Config) (st : CacheState) (a : Nat) :
    (cacheRead c st a).1.sets =
      st.sets.set (split_address c a).2.1 (readTargetSet c st a) := by
  simp only [cacheRead, readTargetSet]
  cases hbi : (find_block_index ((st.sets.getD (split_address c a).2.1 default).blocks)
      ((split_address c a).2.2 : Int) == -1) <;> simp

/-- The sets after `Cache.write`: only the accessed index is replaced,
by `writeTargetSet`. -/
theorem cacheWrite_sets_eq (c : Config) (st : CacheState) (a : Nat) (w : List Nat) :
    (cacheWrite c st a w).1.sets =
      st.sets.set (split_address c a).2.1 (writeTargetSet c st a w) := rfl

/-- `readTargetSet` of a globally clean state is clean. -/
theorem clean_readTargetSet (c : Config) (st : CacheState) (a : Nat)
    (h : allClean st) : ∀ b ∈ (readTargetSet c st a).blocks, b.dirty = false := by
  have hs : ∀ b ∈ (st.sets.getD (split_address c a).2.1 default).blocks, b.dirty = false := by
    intro b hb
    rcases getD_mem_or_default st.sets (split_address c a).2.1 default with h2 | h2
    · exact h _ h2 b hb
    · rw [h2] at hb; exact absurd hb (List.not_mem_nil b)
  simp only [readTargetSet]
  cases hbi : (find_block_index ((st.sets.getD (split_address c a).2.1 default).blocks)
      ((split_address c a).2.2 : Int) == -1)
  · rw [if_neg (by simp)]
    exact clean_set_read_from_cache _ _ _ hs
  · rw [if_pos rfl]
    exact clean_set_read_from_memory _ _ _ _ _ _ hs

/-- `writeTargetSet` of a globally clean state is clean in
write-through mode. -/
theorem clean_writeTargetSet (c : Config) (st : CacheState) (a : Nat) (w : List Nat)
    (hwt : c.write_back = false) (h : allClean st) :
    ∀ b ∈ (writeTargetSet c st a w).blocks, b.dirty = false := by
  have hs : ∀ b ∈ (st.sets.getD (split_address c a).2.1 default).blocks, b.dirty = false := by
    intro b hb
    rcases getD_mem_or_default st.sets (split_address c a).2.1 default with h2 | h2
    · exact h _ h2 b hb
    · rw [h2] at hb; exact absurd hb (List.not_mem_nil b)
  simp only [writeTargetSet]
  rw [hwt]
  cases hbi : (find_block_index ((st.sets.getD (split_address c a).2.1 default).blocks)
      ((split_address c a).2.2 : Int) == -1)
  · rw [if_neg (by simp)]
    exact clean_set_write_to_cache_wt _ _ _ _ _ hs
  · rw [if_pos rfl]
    exact clean_set_write_to_cache_wt _ _ _ _ _
      (clean_set_read_from_memory _ _ _ _ _ _ hs)

/-- One driver step in write-through mode preserves global
cleanliness. -/
theorem clean_step (c : Config) (st : CacheState) (op : Op)
    (hwt : c.write_back = false) (h : allClean st) : allClean (step c st op) := by
  cases op with
  | read a =>
    by_cases hv : simValid c a = true
    · simp only [step, if_pos hv]
      intro s' hs'
      rw [cacheRead_sets_eq] at hs'
      rcases List.mem_or_eq_of_mem_set hs' with h1 | h1
      · exact h _ h1
      · subst h1
        exact clean_readTargetSet c st a.toNat h
    · simp only [step, if_neg hv]; exact h
  | write a w =>
    by_cases hv : simValid c a = true
    · simp only [step, if_pos hv]
      intro s' hs'
      rw [cacheWrite_sets_eq] at hs'
      rcases List.mem_or_eq_of_mem_set hs' with h1 | h1
      · exact h _ h1
      · subst h1
        exact clean_writeTargetSet c st a.toNat _ hwt h
    · simp only [step, if_neg hv]; exact h

/-- In write-through mode (`write_back = false`) no read ever touches
the backing store: the flush branch of `replace_cache_block` is dead. -/
theorem mem_cacheRead_wt (c : Config) (st : CacheState) (a : Nat)
    (hwb : c.write_back = false) :
    (cacheRead c st a).1.mem = st.mem := by
  by_cases hb : find_block_index ((st.sets[(split_address c a).2.1]?.getD default).blocks)
      ((split_address c a).2.2 : Int) = -1 <;>
    cases hf : findIdxP (fun b => !b.occupied)
        ((st.sets[(split_address c a).2.1]?.getD default).blocks) <;>
      simp [cacheRead, hb, set_read_from_memory, replace_cache_block, hwb, hf]

/-- In write-through mode a miss fill never touches the backing
store. -/
theorem mem_set_read_from_memory_wt (bs : Nat) (mem : List Nat) (s : SetState)
    (a : Nat) (tag : Int) :
    (set_read_from_memory false bs mem s a tag).mem = mem := by
  cases hf : findIdxP (fun b => !b.occupied) s.blocks with
  | none =>
    simp only [set_read_from_memory, replace_cache_block]
    rw [hf]
    simp
  | some j =>
    simp only [set_read_from_memory]
    rw [hf]

/-- In write-through mode the only store traffic of a write is its own
through-store of the given four-byte word at the written address: no
eviction-triggered flush ever reaches the backing store. -/
theorem mem_cacheWrite_wt (c : Config) (st : CacheState) (a : Nat) (w : List Nat)
    (hwt : c.write_back = false) :
    (cacheWrite c st a w).1.mem =
      ((default : CacheBlock).write_to_cache w).write_to_memory st.mem a := by
  have hcongr : ∀ b : CacheBlock, ∀ m : List Nat,
      (b.write_to_cache w).write_to_memory m a =
        ((default : CacheBlock).write_to_cache w).write_to_memory m a := by
    intro b m
    rfl
  by_cases hb : find_block_index ((st.sets[(split_address c a).2.1]?.getD default).blocks)
      ((split_address c a).2.2 : Int) = -1 <;>
    simp [cacheWrite, set_write_to_cache, hwt, hb, mem_set_read_from_memory_wt, hcongr]

/-- Refilling a just-cleared block from a store into which the evicted
block's word was just written back at the same address reproduces the
evicted block's word value: the flush happens before the refill, so the
refill reads the flushed bytes. -/
theorem refill_after_flush_word (b x : CacheBlock) (mem : List Nat) (a : Nat) (tag : Int)
    (h : a + 4 ≤ mem.length) :
    ((x.clear_block).read_from_memory (b.write_to_memory mem a) a tag).get_word_dec =
      b.get_word_dec := by
  have g0 : (b.write_to_memory mem a).getD a 0 = b.word.getD 0 0 := by
    unfold CacheBlock.write_to_memory
    rw [getD_set_ne _ _ _ _ _ (by omega), getD_set_ne _ _ _ _ _ (by omega),
      getD_set_ne _ _ _ _ _ (by omega), getD_set_self _ _ _ _ (by omega)]
  have g1 : (b.write_to_memory mem a).getD (a + 1) 0 = b.word.getD 1 0 := by
    unfold CacheBlock.write_to_memory
    rw [getD_set_ne _ _ _ _ _ (by omega), getD_set_ne _ _ _ _ _ (by omega),
      getD_set_self _ _ _ _ (by simpa using by omega)]
  have g2 : (b.write_to_memory mem a).getD (a + 2) 0 = b.word.getD 2 0 := by
    unfold CacheBlock.write_to_memory
    rw [getD_set_ne _ _ _ _ _ (by omega),
      getD_set_self _ _ _ _ (by simpa using by omega)]
  have g3 : (b.write_to_memory mem a).getD (a + 3) 0 = b.word.getD 3 0 := by
    unfold CacheBlock.write_to_memory
    rw [getD_set_self _ _ _ _ (by simpa using by omega)]
  simp only [CacheBlock.clear_block, CacheBlock.read_from_memory, CacheBlock.get_word_dec,
    List.getD_eq_getElem?_getD] at *
  simp only [List.replicate, List.set_cons_zero, List.set_cons_succ]
  simp [g0, g1, g2, g3]

/-- Claim C6: for every valid address, `split_address` computes
`offset = a mod block_size`, `index = (a div block_size) mod num_sets`,
`tag = a div (block_size * num_sets)` (provided `block_size` and
`num_sets` are the exact powers of two demanded by the configuration
contract), and the three fields reconstruct the address exactly;
the function is pure. -/
theorem split_address_reconstructs (c : Config) (a : Nat)
    (hbs : ∃ k, c.block_size = 2 ^ k) (hns : ∃ j, c.num_sets = 2 ^ j)
    (_ha : a < 2 ^ c.address_size) :
    split_address c a =
      (a % c.block_size, a / c.block_size % c.num_sets, a / (c.block_size * c.num_sets)) ∧
    (a / (c.block_size * c.num_sets)) * (c.num_sets * c.block_size) +
      (a / c.block_size % c.num_sets) * c.block_size + a % c.block_size = a := by
  obtain ⟨k, hk⟩ := hbs
  obtain ⟨j, hj⟩ := hns
  have hbos : 2 ^ c.block_offset_size = c.block_size := by
    rw [Config.block_offset_size, floorLog2_eq_log, hk, Nat.log_pow (by norm_num)]
  have his : 2 ^ c.index_size = c.num_sets := by
    rw [Config.index_size, floorLog2_eq_log, hj, Nat.log_pow (by norm_num)]
  constructor
  · rw [split_address, hbos, his, Nat.div_div_eq_div_mul]
  · have hb : 0 < c.block_size := by rw [hk]; positivity
    have hn : 0 < c.num_sets := by rw [hj]; positivity
    have h1 : a / c.block_size % c.num_sets + c.num_sets * (a / c.block_size / c.num_sets) =
        a / c.block_size := Nat.mod_add_div _ _
    have h2 : a % c.block_size + c.block_size * (a / c.block_size) = a :=
      Nat.mod_add_div _ _
    rw [Nat.div_div_eq_div_mul] at h1
    calc (a / (c.block_size * c.num_sets)) * (c.num_sets * c.block_size) +
          (a / c.block_size % c.num_sets) * c.block_size + a % c.block_size
        = (a / c.block_size % c.num_sets + c.num_sets * (a / (c.block_size * c.num_sets))) *
            c.block_size + a % c.block_size := by ring
      _ = (a / c.block_size) * c.block_size + a % c.block_size := by rw [h1]
      _ = a := by rw [Nat.mul_comm]; omega

/-- Witness for C6 at the configuration of `main.py`
(16-bit addresses, 64-bit blocks, 16 sets) and address 1028. -/
theorem split_address_reconstructs_witness :
    split_address ⟨16, 1024, 64, 1, true⟩ 1028 = (4, 0, 1) ∧
    (1028 / (64 * 16)) * (16 * 64) + (1028 / 64 % 16) * 64 + 1028 % 64 = 1028 := by
  have h := split_address_reconstructs ⟨16, 1024, 64, 1, true⟩ 1028
    ⟨6, rfl⟩ ⟨4, by decide⟩ (by norm_num)
  exact ⟨by rw [h.1]; decide, h.2⟩

end CacheSim

namespace CacheSim

/-- Claim C3 (amended): the `write_back` boolean of every write result
equals the cache's write-back mode flag — `True` in write-back mode
(where the write performs no immediate store) and `False` in
write-through mode (where the word is immediately stored). It does not
report "this write flushed to the backing store". -/
theorem write_result_flag_eq_mode (c : Config) (st : CacheState) (a : Nat) (w : List Nat) :
    (cacheWrite c st a w).2.write_back = c.write_back := by
  unfold cacheWrite set_write_to_cache
  cases hc : c.write_back <;> simp [hc]

/-- Claim C3 (counterexample): a write in write-back mode reports
`write_back = True` even though it stores nothing to the backing store
(the store is unchanged), contradicting the claim that the boolean is
true only when this write itself immediately flushed the word (which the
claim says can only happen in write-through mode). -/
theorem write_result_flag_true_in_wb_cex :
    (cacheWrite cfgA (initSim cfgA) 0 (int_to_bytearray 7)).2.write_back = true ∧
    (cacheWrite cfgA (initSim cfgA) 0 (int_to_bytearray 7)).1.mem = initMemory cfgA ∧
    cfgA.write_back = true := by
  refine ⟨by decide, by decide, rfl⟩

/-- Claim C7 (amended): `Cache.__init__` performs no configuration
validation, so the claimed descriptive configuration-error failure
never happens. Construction can only fail by an unintended arithmetic
error — a division by zero in the derived parameters — which occurs
exactly when `block_size = 0`, `associativity = 0`, or the derived set
count is 0; for every other configuration, however invalid
(non-power-of-two sizes, indivisible combinations, negative tag width),
a complete cache object is returned, with `num_sets` sets each holding
`num_blocks_per_set` truncation-derived blocks, over the given backing
store. -/
theorem construction_no_validation (c : Config) (mem : List Nat)
    (hbs : c.block_size ≠ 0) (hassoc : c.associativity ≠ 0) (hns : c.num_sets ≠ 0) :
    mkCacheChecked c mem = some (mkCache c mem) ∧
    (mkCache c mem).mem = mem ∧
    (mkCache c mem).sets.length = c.num_sets ∧
    (∀ s ∈ (mkCache c mem).sets,
      s.blocks.length = c.num_blocks_per_set ∧ s.queue.length = c.num_blocks_per_set) ∧
    (∀ c' : Config, ∀ mem' : List Nat,
      mkCacheChecked c' mem' = none ↔
        (c'.block_size = 0 ∨ c'.associativity = 0 ∨ c'.num_sets = 0)) := by
  refine ⟨?_, rfl, by simp [mkCache], ?_, ?_⟩
  · rw [mkCacheChecked, if_neg (by tauto)]
  · intro s hs
    simp only [mkCache, List.mem_map] at hs
    obtain ⟨i, -, rfl⟩ := hs
    simp [SetState.init]
  · intro c' mem'
    unfold mkCacheChecked
    split
    next h => simpa using h
    next h => simpa using h

/-- Claim C7 (counterexample): a configuration whose block size 48 is
not a power of two (`2 ^ log2 48 = 32 ≠ 48`) is accepted without any
error, descriptive or otherwise: construction takes the non-raising
path and a full cache of 21 sets is returned, where the claim demands
an immediate configuration-error failure with no cache returned. -/
theorem construction_accepts_invalid_config_cex :
    2 ^ floorLog2 48 ≠ 48 ∧
    mkCacheChecked ⟨16, 1024, 48, 1, true⟩ [] = some (mkCache ⟨16, 1024, 48, 1, true⟩ []) ∧
    (mkCache ⟨16, 1024, 48, 1, true⟩ []).sets.length = 21 ∧
    (∀ s ∈ (mkCache ⟨16, 1024, 48, 1, true⟩ []).sets, s.blocks.length = 1) := by
  refine ⟨by decide, by decide, by decide, by decide⟩

/-- Witness for `construction_no_validation` at the invalid-but-non-raising
configuration with block size 48. -/
theorem construction_no_validation_witness :
    ((⟨16, 1024, 48, 1, true⟩ : Config).block_size ≠ 0 ∧
     (⟨16, 1024, 48, 1, true⟩ : Config).associativity ≠ 0 ∧
     Config.num_sets ⟨16, 1024, 48, 1, true⟩ ≠ 0) ∧
    (mkCacheChecked ⟨16, 1024, 48, 1, true⟩ [] =
        some (mkCache ⟨16, 1024, 48, 1, true⟩ []) ∧
     (mkCache ⟨16, 1024, 48, 1, true⟩ []).mem = [] ∧
     (mkCache ⟨16, 1024, 48, 1, true⟩ []).sets.length =
        Config.num_sets ⟨16, 1024, 48, 1, true⟩ ∧
     (∀ s ∈ (mkCache ⟨16, 1024, 48, 1, true⟩ []).sets,
       s.blocks.length = Config.num_blocks_per_set ⟨16, 1024, 48, 1, true⟩ ∧
       s.queue.length = Config.num_blocks_per_set ⟨16, 1024, 48, 1, true⟩) ∧
     (∀ c' : Config, ∀ mem' : List Nat,
       mkCacheChecked c' mem' = none ↔
         (c'.block_size = 0 ∨ c'.associativity = 0 ∨ c'.num_sets = 0))) :=
  ⟨⟨by decide, by decide, by decide⟩,
   construction_no_validation ⟨16, 1024, 48, 1, true⟩ [] (by decide) (by decide) (by decide)⟩

/-- Claim C8: the operation validation (`assert address % 4 == 0`,
`assert 0 <= address <= memory_size` in `CacheSim.read`/`write`)
accepts the out-of-range address `2 ^ address_width` itself, because the
upper bound check is inclusive — the claim demands rejection of every
address outside `[0, 2 ^ address_width)`. At that address the Python
code then faults on an out-of-range store access after already mutating
the accessed block. All strictly smaller aligned addresses behave as the
claim states. -/
theorem validation_accepts_boundary_address :
    simValid mainCfg 65536 = true ∧
    ¬ ((65536 : Int) < 2 ^ mainCfg.address_size) ∧
    (65536 : Int) % 4 = 0 := by
  refine ⟨by decide, by decide, by decide⟩

/-- Claim C2: on a write miss the word is NOT applied to the block that
holds the written address's tag. In a fresh 2-way set, `write(0, 7)`
allocates block 0 for tag 0 (loading word 0 from the backing store) but
then applies the word through the stale index `-1`, i.e. to the
still-unoccupied block 1; afterwards the block holding tag 0 stores 0,
not 7, and a subsequent `read(0)` returns 0 — the written data is
lost. -/
theorem write_miss_applies_word_to_wrong_block :
    (((run cfgB [Op.write 0 7]).sets.getD 0 default).blocks.getD 0 default).tag = 0 ∧
    (((run cfgB [Op.write 0 7]).sets.getD 0 default).blocks.getD 0 default).occupied = true ∧
    (((run cfgB [Op.write 0 7]).sets.getD 0 default).blocks.getD 0 default).get_word_dec = 0 ∧
    (((run cfgB [Op.write 0 7]).sets.getD 0 default).blocks.getD 1 default).occupied = false ∧
    (((run cfgB [Op.write 0 7]).sets.getD 0 default).blocks.getD 1 default).get_word_dec = 7 ∧
    (cacheRead cfgB (run cfgB [Op.write 0 7]) 0).2.hit = true ∧
    (cacheRead cfgB (run cfgB [Op.write 0 7]) 0).2.word = 0 := by
  refine ⟨by decide, by decide, by decide, by decide, by decide, by decide, by decide⟩

end CacheSim

namespace CacheSim

/-- Claim C4 (amended): the accessed set's replacement tracker is
touched with the accessed tag exactly once, after the access's other
effects, on every read (hit or miss) and on every write miss — but a
write hit does not touch the tracker at all, so after a write hit on
tag `t`, `t` need not be the most-recently-used entry. -/
theorem tracker_touched_per_access (c : Config) (st : CacheState) (a : Nat) (w : List Nat)
    (hidx : (split_address c a).2.1 < st.sets.length) :
    (((cacheRead c st a).1.sets.getD (split_address c a).2.1 default).queue =
      update_queue ((st.sets.getD (split_address c a).2.1 default).queue)
        ((split_address c a).2.2 : Int)) ∧
    (((cacheWrite c st a w).1.sets.getD (split_address c a).2.1 default).queue =
      if find_block_index ((st.sets.getD (split_address c a).2.1 default).blocks)
          ((split_address c a).2.2 : Int) = -1 then
        update_queue ((st.sets.getD (split_address c a).2.1 default).queue)
          ((split_address c a).2.2 : Int)
      else (st.sets.getD (split_address c a).2.1 default).queue) := by
  have hset := getElemD_set_self (d := (default : SetState)) (i := (split_address c a).2.1)
  simp only [List.getD_eq_getElem?_getD]
  constructor
  · by_cases hb : find_block_index ((st.sets[(split_address c a).2.1]?.getD default).blocks)
        ((split_address c a).2.2 : Int) = -1 <;>
      simp [cacheRead, hb, hset _ _ hidx, queue_set_read_from_memory,
        queue_set_read_from_cache]
  · by_cases hb : find_block_index ((st.sets[(split_address c a).2.1]?.getD default).blocks)
        ((split_address c a).2.2 : Int) = -1 <;>
      simp [cacheWrite, hb, hset _ _ hidx, queue_set_write_to_cache,
        queue_set_read_from_memory]

/-- Claim C4 (counterexample): in a fresh 2-way set, after `read(0)`
(tag 0), `read(32)` (tag 1) and the write hit `write(0, 5)`, the tracker
still reads `[0, 1]`: tag 0, just used by the write hit, is NOT the
most-recently-used (last) entry — the write hit never touched the
tracker. -/
theorem tracker_not_touched_on_write_hit_cex :
    ((run cfgB [Op.read 0, Op.read 32, Op.write 0 5]).sets.getD 0 default).queue = [0, 1] ∧
    ¬ (((run cfgB [Op.read 0, Op.read 32, Op.write 0 5]).sets.getD 0 default).queue.getLast?
        = some 0) := by
  refine ⟨by decide, by decide⟩

/-- Witness for `tracker_touched_per_access` at `cfgB`, the empty cache
and address 0. -/
theorem tracker_touched_per_access_witness :
    ((split_address cfgB 0).2.1 < (initSim cfgB).sets.length) ∧
    ((((cacheRead cfgB (initSim cfgB) 0).1.sets.getD (split_address cfgB 0).2.1 default).queue =
      update_queue (((initSim cfgB).sets.getD (split_address cfgB 0).2.1 default).queue)
        ((split_address cfgB 0).2.2 : Int)) ∧
    ((((cacheWrite cfgB (initSim cfgB) 0 (int_to_bytearray 3)).1.sets.getD
          (split_address cfgB 0).2.1 default).queue =
      if find_block_index (((initSim cfgB).sets.getD (split_address cfgB 0).2.1 default).blocks)
          ((split_address cfgB 0).2.2 : Int) = -1 then
        update_queue (((initSim cfgB).sets.getD (split_address cfgB 0).2.1 default).queue)
          ((split_address cfgB 0).2.2 : Int)
      else ((initSim cfgB).sets.getD (split_address cfgB 0).2.1 default).queue))) :=
  ⟨by decide, tracker_touched_per_access cfgB (initSim cfgB) 0 (int_to_bytearray 3) (by decide)⟩

end CacheSim

namespace CacheSim

/-- Claim C1 (amended): in write-back mode, when an accepted access —
a read OR a write — evicts a dirty block from a full set, the evicted
block's stored word is flushed to the backing store at the address of
the INCOMING access (the address that triggered the eviction), not at
the evicted block's original address; the flush happens before the new
line is loaded, so the loaded line reads back exactly the flushed word.
In write-through mode no eviction-triggered deferred flush ever occurs:
a read never touches the backing store, and a write's only store
traffic is its own through-store of the written word at the written
address. -/
theorem eviction_flush_targets_requested_address (c : Config) (st : CacheState) (a : Nat)
    (s : SetState) (lru : CacheBlock)
    (hs : s = st.sets[(split_address c a).2.1]?.getD default)
    (hlru : lru = pyGet s.blocks
      (find_block_index s.blocks (get_least_recently_used s.queue)))
    (hwb : c.write_back = true)
    (hmiss : find_block_index s.blocks ((split_address c a).2.2 : Int) = -1)
    (hfull : findIdxP (fun b => !b.occupied) s.blocks = none)
    (hdirty : lru.dirty = true)
    (hlen : a + 4 ≤ st.mem.length) :
    (cacheRead c st a).1.mem = lru.write_to_memory st.mem a ∧
    (cacheRead c st a).2.word = lru.get_word_dec ∧
    (∀ w : List Nat, (cacheWrite c st a w).1.mem = lru.write_to_memory st.mem a) ∧
    (∀ c' : Config, ∀ st' : CacheState, ∀ a' : Nat,
      c'.write_back = false → (cacheRead c' st' a').1.mem = st'.mem) ∧
    (∀ c' : Config, ∀ st' : CacheState, ∀ a' : Nat, ∀ w' : List Nat,
      c'.write_back = false →
        (cacheWrite c' st' a' w').1.mem =
          ((default : CacheBlock).write_to_cache w').write_to_memory st'.mem a') := by
  subst hlru
  subst hs
  refine ⟨?_, ?_, ?_, fun c' st' a' hwt => mem_cacheRead_wt c' st' a' hwt,
    fun c' st' a' w' hwt => mem_cacheWrite_wt c' st' a' w' hwt⟩
  · simp [cacheRead, hmiss, set_read_from_memory, hfull, replace_cache_block, hwb, hdirty]
  · simp [cacheRead, hmiss, set_read_from_memory, hfull, replace_cache_block, hwb, hdirty,
      refill_after_flush_word _ _ _ _ _ hlen]
  · intro w
    simp [cacheWrite, set_write_to_cache, hmiss, set_read_from_memory, hfull,
      replace_cache_block, hwb, hdirty]

/-- Claim C1 (counterexample): with `cfgA`, `write(0, 7)` makes the
set-0 block dirty with word 7 at address 0; the eviction caused by
`read(64)` flushes that word to address 64 (byte 64 of the store
becomes 7, where it initially held 64), while the original address 0
keeps its initial store byte 0 — the claim demands the flush at the
original address 0. -/
theorem eviction_flush_wrong_address_cex :
    (run cfgA [Op.write 0 7, Op.read 64]).mem.getD 64 0 = 7 ∧
    (run cfgA [Op.write 0 7, Op.read 64]).mem.getD 0 0 = 0 ∧
    (initMemory cfgA).getD 64 0 = 64 ∧
    (initMemory cfgA).getD 0 0 = 0 := by
  refine ⟨by decide, by decide, by decide, by decide⟩

set_option maxRecDepth 10000 in
/-- Witness for `eviction_flush_targets_requested_address`: `cfgA` after
`write(0, 7)`, accessing address 64 (read and write cases). -/
theorem eviction_flush_targets_requested_address_witness :
    (cfgA.write_back = true ∧
     find_block_index
        ((run cfgA [Op.write 0 7]).sets[(split_address cfgA 64).2.1]?.getD default).blocks
        ((split_address cfgA 64).2.2 : Int) = -1 ∧
     findIdxP (fun b => !b.occupied)
        ((run cfgA [Op.write 0 7]).sets[(split_address cfgA 64).2.1]?.getD default).blocks =
        none ∧
     (pyGet ((run cfgA [Op.write 0 7]).sets[(split_address cfgA 64).2.1]?.getD default).blocks
        (find_block_index
          ((run cfgA [Op.write 0 7]).sets[(split_address cfgA 64).2.1]?.getD default).blocks
          (get_least_recently_used
            ((run cfgA [Op.write 0 7]).sets[(split_address cfgA 64).2.1]?.getD
              default).queue))).dirty = true ∧
     64 + 4 ≤ (run cfgA [Op.write 0 7]).mem.length) ∧
    ((cacheRead cfgA (run cfgA [Op.write 0 7]) 64).1.mem =
      (pyGet ((run cfgA [Op.write 0 7]).sets[(split_address cfgA 64).2.1]?.getD default).blocks
        (find_block_index
          ((run cfgA [Op.write 0 7]).sets[(split_address cfgA 64).2.1]?.getD default).blocks
          (get_least_recently_used
            ((run cfgA [Op.write 0 7]).sets[(split_address cfgA 64).2.1]?.getD
              default).queue))).write_to_memory (run cfgA [Op.write 0 7]).mem 64 ∧
     (cacheRead cfgA (run cfgA [Op.write 0 7]) 64).2.word =
      (pyGet ((run cfgA [Op.write 0 7]).sets[(split_address cfgA 64).2.1]?.getD default).blocks
        (find_block_index
          ((run cfgA [Op.write 0 7]).sets[(split_address cfgA 64).2.1]?.getD default).blocks
          (get_least_recently_used
            ((run cfgA [Op.write 0 7]).sets[(split_address cfgA 64).2.1]?.getD
              default).queue))).get_word_dec ∧
     (∀ w : List Nat, (cacheWrite cfgA (run cfgA [Op.write 0 7]) 64 w).1.mem =
      (pyGet ((run cfgA [Op.write 0 7]).sets[(split_address cfgA 64).2.1]?.getD default).blocks
        (find_block_index
          ((run cfgA [Op.write 0 7]).sets[(split_address cfgA 64).2.1]?.getD default).blocks
          (get_least_recently_used
            ((run cfgA [Op.write 0 7]).sets[(split_address cfgA 64).2.1]?.getD
              default).queue))).write_to_memory (run cfgA [Op.write 0 7]).mem 64) ∧
     (∀ c' : Config, ∀ st' : CacheState, ∀ a' : Nat,
       c'.write_back = false → (cacheRead c' st' a').1.mem = st'.mem) ∧
     (∀ c' : Config, ∀ st' : CacheState, ∀ a' : Nat, ∀ w' : List Nat,
       c'.write_back = false →
         (cacheWrite c' st' a' w').1.mem =
           ((default : CacheBlock).write_to_cache w').write_to_memory st'.mem a')) :=
  ⟨⟨rfl, by decide, by decide, by decide, by decide⟩,
   eviction_flush_targets_requested_address cfgA (run cfgA [Op.write 0 7]) 64 _ _ rfl rfl
     rfl (by decide) (by decide) (by decide) (by decide)⟩

end CacheSim

namespace CacheSim

/-- Folding any write-through operation sequence over a clean state
keeps every block clean. -/
theorem clean_foldl (c : Config) (hwt : c.write_back = false) (ops : List Op)
    (st : CacheState) (h : allClean st) : allClean (ops.foldl (step c) st) := by
  induction ops generalizing st with
  | nil => exact h
  | cons op rest ih => exact ih (step c st op) (clean_step c st op hwt h)

end CacheSim

namespace CacheSim

/-- Claim C10: in write-through mode (`write_back = false`), after
every sequence of accepted reads and writes from the fresh simulator,
every block of every set is clean — no operation ever sets a dirty
bit. -/
theorem write_through_never_dirty (c : Config) (ops : List Op)
    (hwt : c.write_back = false) : allClean (run c ops) := by
  have hinit : allClean (initSim c) := by
    intro s hs b hb
    simp only [initSim, mkCache, List.mem_map] at hs
    obtain ⟨i, -, rfl⟩ := hs
    simp only [SetState.init] at hb
    have := List.eq_of_mem_replicate hb
    rw [this]; rfl
  exact clean_foldl c hwt ops (initSim c) hinit

/-- Witness for `write_through_never_dirty`: the write-through
configuration `cfgC` with a short scripted trace containing a write hit,
a write miss and an evicting read. -/
theorem write_through_never_dirty_witness :
    cfgC.write_back = false ∧
    allClean (run cfgC [Op.write 0 7, Op.write 0 9, Op.read 64, Op.write 64 3]) :=
  ⟨rfl, write_through_never_dirty cfgC [Op.write 0 7, Op.write 0 9, Op.read 64, Op.write 64 3]
    rfl⟩

end CacheSim

namespace CacheSim

theorem findIdxP_eq_none_iff (p : CacheBlock → Bool) (l : List CacheBlock) :
    findIdxP p l = none ↔ ∀ b ∈ l, p b = false := by
  induction l with
  | nil => simp [findIdxP]
  | cons b bs ih =>
    unfold findIdxP
    cases hp : p b <;> simp [hp, ih]

theorem findIdxP_eq_some_decomp (p : CacheBlock → Bool) (l : List CacheBlock) (i : Nat)
    (h : findIdxP p l = some i) :
    ∃ l1 b l2, l = l1 ++ b :: l2 ∧ l1.length = i ∧ p b = true ∧ ∀ x ∈ l1, p x = false := by
  induction l generalizing i with
  | nil => simp [findIdxP] at h
  | cons b bs ih =>
    unfold findIdxP at h
    cases hp : p b
    · rw [hp] at h
      simp only [Bool.false_eq_true, if_false, Option.map_eq_some'] at h
      obtain ⟨j, hj, rfl⟩ := h
      obtain ⟨l1, x, l2, rfl, rfl, hx, hall⟩ := ih j hj
      refine ⟨b :: l1, x, l2, rfl, by simp, hx, ?_⟩
      intro y hy
      rcases List.mem_cons.mp hy with rfl | hy2
      · exact hp
      · exact hall y hy2
    · rw [hp] at h
      simp only [if_true, Option.some.injEq] at h
      subst h
      exact ⟨[], b, bs, rfl, rfl, hp, by simp⟩

theorem findIdxP_some_lt (p : CacheBlock → Bool) (l : List CacheBlock) (i : Nat)
    (h : findIdxP p l = some i) : i < l.length := by
  obtain ⟨l1, b, l2, rfl, rfl, -, -⟩ := findIdxP_eq_some_decomp p l i h
  simp

theorem findIdxP_getD (p : CacheBlock → Bool) (l : List CacheBlock) (i : Nat)
    (h : findIdxP p l = some i) : p (l.getD i default) = true := by
  obtain ⟨l1, b, l2, rfl, rfl, hb, -⟩ := findIdxP_eq_some_decomp p l i h
  rw [getD_append_length]
  exact hb

theorem findIdxP_set_none (p : CacheBlock → Bool) (l : List CacheBlock) (i : Nat)
    (x : CacheBlock) (hn : findIdxP p l = none) (hi : i < l.length) (hx : p x = true) :
    findIdxP p (l.set i x) = some i := by
  induction l generalizing i with
  | nil => simp at hi
  | cons b bs ih =>
    have hall := (findIdxP_eq_none_iff p (b :: bs)).mp hn
    have hbs : findIdxP p bs = none :=
      (findIdxP_eq_none_iff p bs).mpr (fun y hy => hall y (List.mem_cons_of_mem b hy))
    cases i with
    | zero =>
      show findIdxP p (x :: bs) = some 0
      unfold findIdxP
      rw [hx]
      simp
    | succ j =>
      show findIdxP p (b :: bs.set j x) = some (j + 1)
      unfold findIdxP
      rw [hall b (by simp)]
      simp only [Bool.false_eq_true, if_false]
      rw [ih j hbs (by simpa using hi)]
      rfl

theorem find_block_index_eq_neg_one_iff (blocks : List CacheBlock) (tag : Int) :
    find_block_index blocks tag = -1 ↔
      findIdxP (fun b => b.tag == tag && b.occupied) blocks = none := by
  unfold find_block_index
  cases h : findIdxP (fun b => b.tag == tag && b.occupied) blocks <;> simp [h]

theorem find_block_index_of_some (blocks : List CacheBlock) (tag : Int) (i : Nat)
    (h : findIdxP (fun b => b.tag == tag && b.occupied) blocks = some i) :
    find_block_index blocks tag = (i : Int) := by
  unfold find_block_index
  rw [h]

theorem pyIdx_ofNat (n i : Nat) : pyIdx n (i : Int) = i := by
  simp [pyIdx]

/-- `read_from_cache` on a block that already holds the tag and is
occupied is the identity. -/
theorem read_from_cache_self (b : CacheBlock) (tag : Int)
    (h : (b.tag == tag && b.occupied) = true) : b.read_from_cache tag = b := by
  rw [Bool.and_eq_true, beq_iff_eq] at h
  cases b
  simp only [CacheBlock.read_from_cache]
  simp_all

end CacheSim

namespace CacheSim

theorem P_read_from_memory (b : CacheBlock) (mem : List Nat) (addr : Nat) (tag : Int) :
    ((b.read_from_memory mem addr tag).tag == tag &&
      (b.read_from_memory mem addr tag).occupied) = true := by
  simp [CacheBlock.read_from_memory]

theorem pyIdx_find_lt (blocks : List CacheBlock) (tag : Int) (h : 0 < blocks.length) :
    pyIdx blocks.length (find_block_index blocks tag) < blocks.length := by
  unfold find_block_index
  cases hf : findIdxP (fun b => b.tag == tag && b.occupied) blocks
  · show pyIdx blocks.length (-1) < blocks.length
    unfold pyIdx
    rw [if_neg (by omega)]
    omega
  · have hlt := findIdxP_some_lt _ _ _ hf
    show pyIdx blocks.length _ < blocks.length
    rw [pyIdx_ofNat]
    exact hlt

/-- The free-block branch of `read_from_memory`, explicitly. -/
theorem set_read_from_memory_free (wb : Bool) (bs : Nat) (mem : List Nat) (s : SetState)
    (a : Nat) (tag : Int) (j : Nat)
    (hff : findIdxP (fun b => !b.occupied) s.blocks = some j) :
    (set_read_from_memory wb bs mem s a tag).set.blocks =
      s.blocks.set j ((s.blocks.getD j default).read_from_memory mem a tag) ∧
    (set_read_from_memory wb bs mem s a tag).word =
      ((s.blocks.getD j default).read_from_memory mem a tag).get_word_dec ∧
    (set_read_from_memory wb bs mem s a tag).mem = mem := by
  simp only [set_read_from_memory]
  rw [hff]
  exact ⟨rfl, rfl, rfl⟩

/-- The replacement branch of `read_from_memory`, explicitly: the block
slot of the least-recently-used tag is refilled from the (possibly
flushed-into) store. -/
theorem set_read_from_memory_replace (wb : Bool) (bs : Nat) (mem : List Nat) (s : SetState)
    (a : Nat) (tag : Int)
    (hff : findIdxP (fun b => !b.occupied) s.blocks = none) :
    (set_read_from_memory wb bs mem s a tag).set.blocks =
      pySet s.blocks (find_block_index s.blocks (get_least_recently_used s.queue))
        (((pyGet s.blocks
            (find_block_index s.blocks (get_least_recently_used s.queue))).clear_block).read_from_memory
          (if wb && (pyGet s.blocks
              (find_block_index s.blocks (get_least_recently_used s.queue))).dirty then
            (pyGet s.blocks
              (find_block_index s.blocks (get_least_recently_used s.queue))).write_to_memory
                mem a
          else mem) a tag) ∧
    (set_read_from_memory wb bs mem s a tag).word =
      (((pyGet s.blocks
          (find_block_index s.blocks (get_least_recently_used s.queue))).clear_block).read_from_memory
        (if wb && (pyGet s.blocks
            (find_block_index s.blocks (get_least_recently_used s.queue))).dirty then
          (pyGet s.blocks
            (find_block_index s.blocks (get_least_recently_used s.queue))).write_to_memory
              mem a
        else mem) a tag).get_word_dec := by
  simp only [set_read_from_memory, replace_cache_block]
  rw [hff]
  exact ⟨rfl, rfl⟩

/-- Behaviour of `Cache.read` on a hit: reports hit with the resident
block's word, leaves the backing store and the set's blocks unchanged,
and preserves the shape of the cache. -/
theorem cacheRead_hit_spec (c : Config) (st : CacheState) (a : Nat) (i : Nat)
    (hidx : (split_address c a).2.1 < st.sets.length)
    (hfind : findIdxP (fun b => b.tag == ((split_address c a).2.2 : Int) && b.occupied)
      ((st.sets.getD (split_address c a).2.1 default).blocks) = some i) :
    (cacheRead c st a).2.hit = true ∧
    (cacheRead c st a).2.word =
      (((st.sets.getD (split_address c a).2.1 default).blocks).getD i default).get_word_dec ∧
    (cacheRead c st a).1.mem = st.mem ∧
    ((cacheRead c st a).1.sets.getD (split_address c a).2.1 default).blocks =
      (st.sets.getD (split_address c a).2.1 default).blocks ∧
    (cacheRead c st a).1.sets.length = st.sets.length := by
  have hfb := find_block_index_of_some _ _ _ hfind
  have hlt := findIdxP_some_lt _ _ _ hfind
  have hP := findIdxP_getD _ _ _ hfind
  have hb1 : pyGet ((st.sets.getD (split_address c a).2.1 default).blocks) ((i : Nat) : Int) =
      ((st.sets.getD (split_address c a).2.1 default).blocks).getD i default := by
    simp only [pyGet, pyIdx_ofNat]
  have hne : ¬((((i : Nat) : Int) == -1) = true) := by
    simp only [beq_iff_eq]
    omega
  simp only [cacheRead]
  rw [hfb, if_neg hne]
  refine ⟨rfl, ?_, rfl, ?_, ?_⟩
  · show (((pyGet ((st.sets.getD (split_address c a).2.1 default).blocks)
        ((i : Nat) : Int)).read_from_cache _)).get_word_dec = _
    rw [hb1, read_from_cache_self _ _ hP]
  · rw [getD_set_self _ _ _ _ hidx]
    show pySet ((st.sets.getD (split_address c a).2.1 default).blocks) ((i : Nat) : Int) _ = _
    unfold pySet
    rw [pyIdx_ofNat, hb1, read_from_cache_self _ _ hP, set_getD_self _ _ _ hlt]
  · simp

end CacheSim

namespace CacheSim

/-- After any `Cache.read` of a set with at least one block slot, the
accessed tag is resident: some block of the accessed set holds it,
occupied, and its stored word is the word the read returned; lengths are
preserved. -/
theorem cacheRead_resident (c : Config) (st : CacheState) (a : Nat)
    (hidx : (split_address c a).2.1 < st.sets.length)
    (hlen : 0 < ((st.sets.getD (split_address c a).2.1 default).blocks).length) :
    (∃ i, findIdxP (fun b => b.tag == ((split_address c a).2.2 : Int) && b.occupied)
        (((cacheRead c st a).1.sets.getD (split_address c a).2.1 default).blocks) = some i ∧
      ((((cacheRead c st a).1.sets.getD (split_address c a).2.1 default).blocks).getD i
          default).get_word_dec = (cacheRead c st a).2.word) ∧
    (((cacheRead c st a).1.sets.getD (split_address c a).2.1 default).blocks).length =
      ((st.sets.getD (split_address c a).2.1 default).blocks).length ∧
    (cacheRead c st a).1.sets.length = st.sets.length := by
  cases hfi : findIdxP (fun b => b.tag == ((split_address c a).2.2 : Int) && b.occupied)
      ((st.sets.getD (split_address c a).2.1 default).blocks) with
  | some i =>
    obtain ⟨-, hword, -, hblocks, hsets⟩ := cacheRead_hit_spec c st a i hidx hfi
    refine ⟨⟨i, ?_, ?_⟩, by rw [hblocks], hsets⟩
    · rw [hblocks]; exact hfi
    · rw [hblocks, hword]
  | none =>
    have hfb : find_block_index ((st.sets.getD (split_address c a).2.1 default).blocks)
        ((split_address c a).2.2 : Int) = -1 :=
      (find_block_index_eq_neg_one_iff _ _).mpr hfi
    have hcond : ((find_block_index ((st.sets.getD (split_address c a).2.1 default).blocks)
        ((split_address c a).2.2 : Int)) == -1) = true := by rw [hfb]; rfl
    simp only [cacheRead]
    rw [hcond, if_pos rfl, getD_set_self _ _ _ _ hidx]
    cases hff : findIdxP (fun b => !b.occupied)
        ((st.sets.getD (split_address c a).2.1 default).blocks) with
    | some j =>
      obtain ⟨hbl, hw, -⟩ := set_read_from_memory_free c.write_back c.block_size st.mem
        (st.sets.getD (split_address c a).2.1 default) a ((split_address c a).2.2 : Int) j hff
      have hjlt := findIdxP_some_lt _ _ _ hff
      rw [hbl, hw]
      refine ⟨⟨j, ?_, ?_⟩, by simp, by simp⟩
      · exact findIdxP_set_none _ _ _ _ hfi hjlt (P_read_from_memory _ _ _ _)
      · rw [getD_set_self _ _ _ _ hjlt]
    | none =>
      obtain ⟨hbl, hw⟩ := set_read_from_memory_replace c.write_back c.block_size st.mem
        (st.sets.getD (split_address c a).2.1 default) a ((split_address c a).2.2 : Int) hff
      have hklt := pyIdx_find_lt ((st.sets.getD (split_address c a).2.1 default).blocks)
        (get_least_recently_used ((st.sets.getD (split_address c a).2.1 default).queue)) hlen
      rw [hbl, hw]
      unfold pySet
      refine ⟨⟨pyIdx ((st.sets.getD (split_address c a).2.1 default).blocks).length
        (find_block_index ((st.sets.getD (split_address c a).2.1 default).blocks)
          (get_least_recently_used ((st.sets.getD (split_address c a).2.1 default).queue))),
        ?_, ?_⟩, by simp, by simp⟩
      · exact findIdxP_set_none _ _ _ _ hfi hklt (P_read_from_memory _ _ _ _)
      · rw [getD_set_self _ _ _ _ hklt]

/-- A read from a state whose accessed set is entirely clean (or a
write-through cache) never changes the backing store. -/
theorem cacheRead_mem_of_clean (c : Config) (st : CacheState) (a : Nat)
    (hclean : c.write_back = false ∨
      ∀ b ∈ (st.sets.getD (split_address c a).2.1 default).blocks, b.dirty = false) :
    (cacheRead c st a).1.mem = st.mem := by
  rcases hclean with hwt | hcl
  · exact mem_cacheRead_wt c st a hwt
  cases hbi : ((find_block_index ((st.sets.getD (split_address c a).2.1 default).blocks)
      ((split_address c a).2.2 : Int)) == -1)
  · simp only [cacheRead]
    rw [hbi, if_neg (by simp)]
  · simp only [cacheRead]
    rw [hbi, if_pos rfl]
    show (set_read_from_memory _ _ _ _ _ _).mem = st.mem
    cases hff : findIdxP (fun b => !b.occupied)
        ((st.sets.getD (split_address c a).2.1 default).blocks) with
    | some j =>
      exact (set_read_from_memory_free _ _ _ _ _ _ j hff).2.2
    | none =>
      simp only [set_read_from_memory, replace_cache_block]
      rw [hff]
      show (if c.write_back && (pyGet _ _).dirty then _ else st.mem) = st.mem
      have hd : (pyGet ((st.sets.getD (split_address c a).2.1 default).blocks)
          (find_block_index ((st.sets.getD (split_address c a).2.1 default).blocks)
            (get_least_recently_used
              ((st.sets.getD (split_address c a).2.1 default).queue)))).dirty = false :=
        dirty_getD_false _ _ hcl
      rw [hd]
      simp

end CacheSim

namespace CacheSim

/-- Claim C5 (amended): repeated reads of the same valid address with no
intervening writes return the same word every time and report hit on the
second and all subsequent reads, and no read after the first changes any
byte of the backing store — unconditionally; the first read also leaves
the backing store unchanged provided the accessed set holds no dirty
block (in particular in write-through mode), whereas a first read that
evicts a dirty block does write the store. -/
theorem repeated_read_idempotent (c : Config) (st : CacheState) (a : Nat)
    (hidx : (split_address c a).2.1 < st.sets.length)
    (hlen : 0 < ((st.sets.getD (split_address c a).2.1 default).blocks).length) :
    (∀ n : Nat, 1 ≤ n →
      (cacheRead c (readSeq c a st n) a).2.hit = true ∧
      (cacheRead c (readSeq c a st n) a).2.word = (cacheRead c st a).2.word ∧
      (cacheRead c (readSeq c a st n) a).1.mem = (readSeq c a st n).mem) ∧
    ((c.write_back = false ∨
        ∀ b ∈ (st.sets.getD (split_address c a).2.1 default).blocks, b.dirty = false) →
      (cacheRead c st a).1.mem = st.mem) := by
  refine ⟨?_, fun hclean => cacheRead_mem_of_clean c st a hclean⟩
  have hQ : ∀ n, 1 ≤ n →
      (readSeq c a st n).sets.length = st.sets.length ∧
      ∃ i, findIdxP (fun b => b.tag == ((split_address c a).2.2 : Int) && b.occupied)
          (((readSeq c a st n).sets.getD (split_address c a).2.1 default).blocks) = some i ∧
        ((((readSeq c a st n).sets.getD (split_address c a).2.1 default).blocks).getD i
            default).get_word_dec = (cacheRead c st a).2.word := by
    intro n hn
    induction n, hn using Nat.le_induction with
    | base =>
      obtain ⟨⟨i, hfind, hword⟩, -, hslen⟩ := cacheRead_resident c st a hidx hlen
      exact ⟨hslen, i, hfind, hword⟩
    | succ n hn ih =>
      obtain ⟨hslen, i, hfind, hword⟩ := ih
      have hidx2 : (split_address c a).2.1 < (readSeq c a st n).sets.length := by
        rw [hslen]; exact hidx
      obtain ⟨-, -, -, hbl2, hsl2⟩ := cacheRead_hit_spec c (readSeq c a st n) a i hidx2 hfind
      refine ⟨?_, i, ?_, ?_⟩
      · show (cacheRead c (readSeq c a st n) a).1.sets.length = st.sets.length
        rw [hsl2, hslen]
      · show findIdxP _ (((cacheRead c (readSeq c a st n) a).1.sets.getD
          (split_address c a).2.1 default).blocks) = some i
        rw [hbl2]; exact hfind
      · show ((((cacheRead c (readSeq c a st n) a).1.sets.getD
          (split_address c a).2.1 default).blocks).getD i default).get_word_dec = _
        rw [hbl2]; exact hword
  intro n hn
  obtain ⟨hslen, i, hfind, hword⟩ := hQ n hn
  have hidx2 : (split_address c a).2.1 < (readSeq c a st n).sets.length := by
    rw [hslen]; exact hidx
  obtain ⟨hh, hw, hm, -, -⟩ := cacheRead_hit_spec c (readSeq c a st n) a i hidx2 hfind
  exact ⟨hh, by rw [hw, hword], hm⟩

/-- Claim C5 (counterexample): with `cfgA`, after `write(0, 7)` the
first read of address 64 (with no intervening writes among the repeated
reads) changes byte 64 of the backing store from 64 to 7, because it
evicts the dirty block and flushes it to the requested address —
contradicting "none of the repeated reads (including the first) changes
any byte of the backing store". -/
theorem first_read_changes_store_cex :
    (run cfgA [Op.write 0 7]).mem.getD 64 0 = 64 ∧
    (run cfgA [Op.write 0 7, Op.read 64]).mem.getD 64 0 = 7 := by
  refine ⟨by decide, by decide⟩

/-- Witness for `repeated_read_idempotent`: the fresh `cfgA` simulator
at address 0. -/
theorem repeated_read_idempotent_witness :
    ((split_address cfgA 0).2.1 < (initSim cfgA).sets.length ∧
     0 < (((initSim cfgA).sets.getD (split_address cfgA 0).2.1 default).blocks).length) ∧
    ((∀ n : Nat, 1 ≤ n →
       (cacheRead cfgA (readSeq cfgA 0 (initSim cfgA) n) 0).2.hit = true ∧
       (cacheRead cfgA (readSeq cfgA 0 (initSim cfgA) n) 0).2.word =
         (cacheRead cfgA (initSim cfgA) 0).2.word ∧
       (cacheRead cfgA (readSeq cfgA 0 (initSim cfgA) n) 0).1.mem =
         (readSeq cfgA 0 (initSim cfgA) n).mem) ∧
     ((cfgA.write_back = false ∨
         ∀ b ∈ ((initSim cfgA).sets.getD (split_address cfgA 0).2.1 default).blocks,
           b.dirty = false) →
       (cacheRead cfgA (initSim cfgA) 0).1.mem = (initSim cfgA).mem)) :=
  ⟨⟨by decide, by decide⟩,
   repeated_read_idempotent cfgA (initSim cfgA) 0 (by decide) (by decide)⟩

end CacheSim

namespace CacheSim

theorem getD_mem_of_lt {α : Type} (l : List α) (n : Nat) (d : α) (h : n < l.length) :
    l.getD n d ∈ l := by
  induction l generalizing n with
  | nil => simp at h
  | cons a t ih =>
    cases n with
    | zero => simp
    | succ m => exact List.mem_cons_of_mem a (ih m (by simpa using h))

theorem mem_set_cases {α : Type} (l : List α) (n : Nat) (x a : α) (h : a ∈ l.set n x) :
    a ∈ l ∨ (n < l.length ∧ a = x) := by
  by_cases hn : n < l.length
  · rcases List.mem_or_eq_of_mem_set h with h1 | h1
    · exact Or.inl h1
    · exact Or.inr ⟨hn, h1⟩
  · rw [List.set_eq_of_length_le (by omega)] at h
    exact Or.inl h

theorem exists_decomp_at {α : Type} (l : List α) (k : Nat) (d : α) (h : k < l.length) :
    ∃ l1 b l2, l = l1 ++ b :: l2 ∧ l1.length = k ∧ b = l.getD k d := by
  induction l generalizing k with
  | nil => simp at h
  | cons a t ih =>
    cases k with
    | zero => exact ⟨[], a, t, rfl, rfl, rfl⟩
    | succ m =>
      obtain ⟨l1, b, l2, heq, hlen, hb⟩ := ih m (by simpa using h)
      exact ⟨a :: l1, b, l2, by rw [heq]; rfl, by simp [hlen], hb⟩

theorem occupiedTags_append_cons_occ (l1 : List CacheBlock) (b : CacheBlock)
    (l2 : List CacheBlock) (hb : b.occupied = true) :
    occupiedTags (l1 ++ b :: l2) = occupiedTags l1 ++ b.tag :: occupiedTags l2 := by
  simp [occupiedTags, List.filter_append, List.filter_cons, hb]

theorem occupiedTags_append_cons_free (l1 : List CacheBlock) (b : CacheBlock)
    (l2 : List CacheBlock) (hb : b.occupied = false) :
    occupiedTags (l1 ++ b :: l2) = occupiedTags l1 ++ occupiedTags l2 := by
  simp [occupiedTags, List.filter_append, List.filter_cons, hb]

theorem mem_occupiedTags_iff (blocks : List CacheBlock) (t : Int) :
    t ∈ occupiedTags blocks ↔ ∃ b ∈ blocks, b.occupied = true ∧ b.tag = t := by
  simp only [occupiedTags, List.mem_map, List.mem_filter]
  constructor
  · rintro ⟨b, ⟨hb, hocc⟩, rfl⟩
    exact ⟨b, hb, hocc, rfl⟩
  · rintro ⟨b, hb, hocc, rfl⟩
    exact ⟨b, ⟨hb, hocc⟩, rfl⟩

theorem exists_findIdxP_of_exists (p : CacheBlock → Bool) (l : List CacheBlock)
    (h : ∃ b ∈ l, p b = true) : ∃ m, findIdxP p l = some m := by
  cases hf : findIdxP p l with
  | none =>
    obtain ⟨b, hb, hp⟩ := h
    rw [(findIdxP_eq_none_iff p l).mp hf b hb] at hp
    exact absurd hp (by simp)
  | some m => exact ⟨m, rfl⟩

theorem not_mem_occupiedTags_of_find_none (blocks : List CacheBlock) (t : Int)
    (h : findIdxP (fun b => b.tag == t && b.occupied) blocks = none) :
    t ∉ occupiedTags blocks := by
  intro hmem
  obtain ⟨b, hb, hocc, htag⟩ := (mem_occupiedTags_iff blocks t).mp hmem
  have := (findIdxP_eq_none_iff _ _).mp h b hb
  rw [htag, hocc] at this
  simp at this

theorem mem_replicate_append_iff (k : Nat) (real : List Int) (t : Int) (ht : t ≠ -1) :
    t ∈ List.replicate k (-1) ++ real ↔ t ∈ real := by
  simp only [List.mem_append, List.mem_replicate]
  constructor
  · rintro (⟨-, h⟩ | h)
    · exact absurd h ht
    · exact h
  · exact Or.inr

theorem erase_replicate_append (k : Nat) (real : List Int) (t : Int) (ht : t ≠ -1) :
    (List.replicate k (-1) ++ real).erase t = List.replicate k (-1) ++ real.erase t :=
  List.erase_append_right _ (by simp [List.mem_replicate]; intro _; exact fun he => ht he)

theorem tail_replicate_append (k : Nat) (real : List Int) (hk : 0 < k) :
    (List.replicate k (-1) ++ real).tail = List.replicate (k - 1) (-1) ++ real := by
  cases k with
  | zero => omega
  | succ m => rw [List.replicate_succ]; rfl

end CacheSim

namespace CacheSim

/-- Replacing one slot by a block with the same occupancy and tag leaves
the occupied-tag list unchanged. -/
theorem occupiedTags_set_same (blocks : List CacheBlock) (k : Nat) (b' : CacheBlock)
    (hocc : b'.occupied = (blocks.getD k default).occupied)
    (htag : b'.tag = (blocks.getD k default).tag) :
    occupiedTags (blocks.set k b') = occupiedTags blocks := by
  by_cases hk : k < blocks.length
  · obtain ⟨l1, b, l2, hdec, hl1, hb⟩ := exists_decomp_at blocks k default hk
    rw [hdec, ← hl1, set_append_length]
    rw [hdec] at hb
    cases hob : b.occupied with
    | false =>
      rw [occupiedTags_append_cons_free _ _ _ hob,
        occupiedTags_append_cons_free _ _ _ (by rw [hocc, hdec, ← hb, hob])]
    | true =>
      rw [occupiedTags_append_cons_occ _ _ _ hob,
        occupiedTags_append_cons_occ _ _ _ (by rw [hocc, hdec, ← hb, hob]),
        htag, hdec, ← hb]
  · rw [List.set_eq_of_length_le (by omega)]

/-- A hit refresh (`read_from_cache` at the found index) preserves the
tag-queue invariant. -/
theorem inv_set_read_from_cache (assoc : Nat) (s : SetState) (tag : Int) (i : Nat)
    (hInv : SetInv assoc s) (htag : 0 ≤ tag)
    (hfind : findIdxP (fun b => b.tag == tag && b.occupied) s.blocks = some i) :
    SetInv assoc (set_read_from_cache s tag ((i : Nat) : Int)).1 := by
  obtain ⟨hbl, hql, sent, real, hq, hpos, hnd, hperm⟩ := hInv
  have hP := findIdxP_getD _ _ _ hfind
  have hlt := findIdxP_some_lt _ _ _ hfind
  have hb1 : pyGet s.blocks ((i : Nat) : Int) = s.blocks.getD i default := by
    simp only [pyGet, pyIdx_ofNat]
  have hblocks : (set_read_from_cache s tag ((i : Nat) : Int)).1.blocks = s.blocks := by
    show pySet s.blocks _ _ = s.blocks
    unfold pySet
    rw [pyIdx_ofNat, hb1, read_from_cache_self _ _ hP, set_getD_self _ _ _ hlt]
  have htne : tag ≠ -1 := by omega
  have htoT : tag ∈ occupiedTags s.blocks := by
    apply (mem_occupiedTags_iff _ _).mpr
    have hPb := hP
    rw [Bool.and_eq_true, beq_iff_eq] at hPb
    exact ⟨s.blocks.getD i default, getD_mem_of_lt _ _ _ hlt, hPb.2, hPb.1⟩
  have htreal : tag ∈ real := hperm.mem_iff.mpr htoT
  have htq : tag ∈ s.queue := by
    rw [hq]; exact (mem_replicate_append_iff _ _ _ htne).mpr htreal
  have hq1 : 0 < s.queue.length := List.length_pos_of_mem htq
  refine ⟨by rw [hblocks]; exact hbl, ?_, sent, real.erase tag ++ [tag], ?_, ?_, ?_, ?_⟩
  · show (update_queue s.queue tag).length = assoc
    rw [update_queue, if_pos htq, List.length_append, List.length_erase_of_mem htq, hql]
    simp
    omega
  · show update_queue s.queue tag = _
    rw [update_queue, if_pos htq, hq, erase_replicate_append _ _ _ htne, List.append_assoc]
  · intro t htmem
    rcases List.mem_append.mp htmem with h1 | h1
    · exact hpos t (List.mem_of_mem_erase h1)
    · rw [List.mem_singleton.mp h1]; exact htag
  · have hcons : (tag :: real.erase tag).Nodup :=
      List.nodup_cons.mpr ⟨hnd.not_mem_erase, hnd.erase tag⟩
    exact (List.perm_append_singleton tag (real.erase tag)).symm.nodup hcons
  · rw [hblocks]
    exact ((List.perm_append_singleton _ _).trans
      (List.perm_cons_erase htreal).symm).trans hperm

/-- A miss fill (`read_from_memory`) preserves the tag-queue
invariant. -/
theorem inv_set_read_from_memory (assoc : Nat) (wb : Bool) (bs : Nat) (mem : List Nat)
    (s : SetState) (a : Nat) (tag : Int)
    (hInv : SetInv assoc s) (htag : 0 ≤ tag) (hassoc : 0 < assoc)
    (hmiss : findIdxP (fun b => b.tag == tag && b.occupied) s.blocks = none) :
    SetInv assoc (set_read_from_memory wb bs mem s a tag).set := by
  obtain ⟨hbl, hql, sent, real, hq, hpos, hnd, hperm⟩ := hInv
  have htne : tag ≠ -1 := by omega
  have htnotoT : tag ∉ occupiedTags s.blocks := not_mem_occupiedTags_of_find_none _ _ hmiss
  have htnotreal : tag ∉ real := fun h => htnotoT (hperm.mem_iff.mp h)
  have htnotq : tag ∉ s.queue := by
    rw [hq]; exact fun h => htnotreal ((mem_replicate_append_iff _ _ _ htne).mp h)
  have hqueue : (set_read_from_memory wb bs mem s a tag).set.queue =
      update_queue s.queue tag := queue_set_read_from_memory wb bs mem s a tag
  have huq : update_queue s.queue tag = s.queue.tail ++ [tag] := by
    rw [update_queue, if_neg htnotq]
  have hlen_sum : sent + real.length = assoc := by
    rw [← hql, hq]
    simp
  cases hff : findIdxP (fun b => !b.occupied) s.blocks with
  | some j =>
    obtain ⟨hblocks, -, -⟩ := set_read_from_memory_free wb bs mem s a tag j hff
    have hjlt := findIdxP_some_lt _ _ _ hff
    have hfree : (s.blocks.getD j default).occupied = false := by
      have h2 := findIdxP_getD _ _ _ hff
      simpa using h2
    have hoccLt : (occupiedTags s.blocks).length < s.blocks.length := by
      unfold occupiedTags
      rw [List.length_map]
      exact List.length_filter_lt_length_iff_exists.mpr
        ⟨s.blocks.getD j default, getD_mem_of_lt _ _ _ hjlt,
          by simp only [Bool.not_eq_true]; exact hfree⟩
    have hrlen : real.length = (occupiedTags s.blocks).length := hperm.length_eq
    have hsent : 0 < sent := by omega
    obtain ⟨l1, bj, l2, hdec, hl1, hbj⟩ := exists_decomp_at s.blocks j default hjlt
    have hperm2 : real.Perm (occupiedTags l1 ++ occupiedTags l2) := by
      rw [hdec, occupiedTags_append_cons_free _ _ _ (by rw [hbj]; exact hfree)]
        at hperm
      exact hperm
    refine ⟨?_, ?_, sent - 1, real ++ [tag], ?_, ?_, ?_, ?_⟩
    · rw [hblocks]
      simp [hbl]
    · rw [hqueue, huq, hq, List.length_append,
        tail_replicate_append _ _ hsent, List.length_append]
      simp
      omega
    · rw [hqueue, huq, hq, tail_replicate_append _ _ hsent, List.append_assoc]
    · intro t htmem
      rcases List.mem_append.mp htmem with h1 | h1
      · exact hpos t h1
      · rw [List.mem_singleton.mp h1]; exact htag
    · have hcons : (tag :: real).Nodup := List.nodup_cons.mpr ⟨htnotreal, hnd⟩
      exact (List.perm_append_singleton tag real).symm.nodup hcons
    · rw [hblocks, hdec, ← hl1, set_append_length,
        occupiedTags_append_cons_occ _ _ _ rfl, getD_append_length]
      have hft : ∀ b : CacheBlock, (b.read_from_memory mem a tag).tag = tag := fun _ => rfl
      rw [hft]
      exact ((List.perm_append_singleton _ _).trans
        ((hperm2.cons tag).trans List.perm_middle.symm))
  | none =>
    obtain ⟨hblocks, -⟩ := set_read_from_memory_replace wb bs mem s a tag hff
    have halloc : ∀ b ∈ s.blocks, b.occupied = true := by
      intro b hb
      have h2 := (findIdxP_eq_none_iff _ _).mp hff b hb
      simpa using h2
    have hoT_len : (occupiedTags s.blocks).length = s.blocks.length := by
      unfold occupiedTags
      rw [List.length_map, List.filter_eq_self.mpr halloc]
    have hrlen : real.length = assoc := by
      rw [hperm.length_eq, hoT_len, hbl]
    have hsent0 : sent = 0 := by omega
    subst hsent0
    rw [List.replicate_zero, List.nil_append] at hq
    have hrne : real ≠ [] := by
      intro h
      rw [h] at hrlen
      simp at hrlen
      omega
    obtain ⟨rt, rest, rfl⟩ := List.exists_cons_of_ne_nil hrne
    have hlru : get_least_recently_used s.queue = rt := by
      rw [hq]; rfl
    have hrtoT : rt ∈ occupiedTags s.blocks := hperm.mem_iff.mp (by simp)
    obtain ⟨m, hm⟩ := exists_findIdxP_of_exists
      (fun b => b.tag == rt && b.occupied) s.blocks (by
        obtain ⟨b, hb, hocc, htg⟩ := (mem_occupiedTags_iff _ _).mp hrtoT
        exact ⟨b, hb, by simp [htg, hocc]⟩)
    have hfbi : find_block_index s.blocks rt = ((m : Nat) : Int) :=
      find_block_index_of_some _ _ _ hm
    have hmlt := findIdxP_some_lt _ _ _ hm
    obtain ⟨l1, bm, l2, hdec, hl1, hbm⟩ := exists_decomp_at s.blocks m default hmlt
    have hPm := findIdxP_getD _ _ _ hm
    rw [Bool.and_eq_true, beq_iff_eq] at hPm
    have hbmocc : bm.occupied = true := by rw [hbm]; exact hPm.2
    have hbmtag : bm.tag = rt := by rw [hbm]; exact hPm.1
    have hperm2 : rest.Perm (occupiedTags l1 ++ occupiedTags l2) := by
      rw [hdec, occupiedTags_append_cons_occ _ _ _ hbmocc, hbmtag] at hperm
      exact (hperm.trans List.perm_middle).cons_inv
    have hnd2 := List.nodup_cons.mp hnd
    have htnotrest : tag ∉ rest := fun h => htnotreal (List.mem_cons_of_mem rt h)
    refine ⟨?_, ?_, 0, rest ++ [tag], ?_, ?_, ?_, ?_⟩
    · rw [hblocks, hlru, hfbi]
      show (pySet s.blocks _ _).length = assoc
      unfold pySet
      simp [hbl]
    · rw [hqueue, huq, hq]
      show (rest ++ [tag]).length = assoc
      rw [List.length_append]
      have : (rt :: rest).length = assoc := by rw [← hrlen]
      simp at this ⊢
      omega
    · rw [hqueue, huq, hq, List.replicate_zero, List.nil_append]
      rfl
    · intro t htmem
      rcases List.mem_append.mp htmem with h1 | h1
      · exact hpos t (List.mem_cons_of_mem rt h1)
      · rw [List.mem_singleton.mp h1]; exact htag
    · have hcons : (tag :: rest).Nodup := List.nodup_cons.mpr ⟨htnotrest, hnd2.2⟩
      exact (List.perm_append_singleton tag rest).symm.nodup hcons
    · rw [hblocks, hlru, hfbi]
      show (rest ++ [tag]).Perm (occupiedTags (pySet s.blocks ((m : Nat) : Int) _))
      unfold pySet
      rw [pyIdx_ofNat, hdec, ← hl1, set_append_length,
        occupiedTags_append_cons_occ _ _ _ rfl]
      have hft : ∀ b : CacheBlock, ∀ mm : List Nat,
          ((b.clear_block).read_from_memory mm a tag).tag = tag := fun _ _ => rfl
      rw [hft]
      exact ((List.perm_append_singleton _ _).trans
        ((hperm2.cons tag).trans List.perm_middle.symm))

/-- `write_to_cache` preserves the tag-queue invariant: it changes only
the word and dirty bit of one slot and never touches the queue. -/
theorem inv_set_write_to_cache (assoc : Nat) (wb : Bool) (mem : List Nat) (s : SetState)
    (a : Nat) (bi : Int) (w : List Nat) (hInv : SetInv assoc s) :
    SetInv assoc (set_write_to_cache wb mem s a bi w).2.1 := by
  obtain ⟨hbl, hql, sent, real, hq, hpos, hnd, hperm⟩ := hInv
  have hqueue := queue_set_write_to_cache wb mem s a bi w
  have hblocks : (set_write_to_cache wb mem s a bi w).2.1.blocks =
      pySet s.blocks bi
        (if wb then { (pyGet s.blocks bi).write_to_cache w with dirty := true }
         else (pyGet s.blocks bi).write_to_cache w) := by
    unfold set_write_to_cache
    split <;> rfl
  have hoT : occupiedTags ((set_write_to_cache wb mem s a bi w).2.1.blocks) =
      occupiedTags s.blocks := by
    rw [hblocks]
    unfold pySet
    apply occupiedTags_set_same
    · split <;> rfl
    · split <;> rfl
  refine ⟨?_, by rw [hqueue]; exact hql, sent, real, by rw [hqueue]; exact hq, hpos, hnd, ?_⟩
  · rw [hblocks]
    simp [pySet, hbl]
  · rw [hoT]
    exact hperm

end CacheSim

namespace CacheSim

/-- `readTargetSet` preserves the tag-queue invariant. -/
theorem inv_readTargetSet (c : Config) (st : CacheState) (a : Nat) (assoc : Nat)
    (hassoc : 0 < assoc)
    (hInv : SetInv assoc (st.sets.getD (split_address c a).2.1 default)) :
    SetInv assoc (readTargetSet c st a) := by
  simp only [readTargetSet]
  cases hbi : (find_block_index ((st.sets.getD (split_address c a).2.1 default).blocks)
      ((split_address c a).2.2 : Int) == -1)
  · have hne : find_block_index ((st.sets.getD (split_address c a).2.1 default).blocks)
        ((split_address c a).2.2 : Int) ≠ -1 := by
      simpa using hbi
    cases hf : findIdxP
        (fun b => b.tag == ((split_address c a).2.2 : Int) && b.occupied)
        ((st.sets.getD (split_address c a).2.1 default).blocks) with
    | none => exact absurd ((find_block_index_eq_neg_one_iff _ _).mpr hf) hne
    | some i =>
      have hfb := find_block_index_of_some _ _ _ hf
      rw [if_neg (by simp), hfb]
      exact inv_set_read_from_cache assoc _ _ i hInv (Int.natCast_nonneg _) hf
  · have heq : find_block_index ((st.sets.getD (split_address c a).2.1 default).blocks)
        ((split_address c a).2.2 : Int) = -1 := by
      simpa using hbi
    rw [if_pos rfl]
    exact inv_set_read_from_memory assoc c.write_back c.block_size st.mem _ a _ hInv
      (Int.natCast_nonneg _) hassoc ((find_block_index_eq_neg_one_iff _ _).mp heq)

/-- `writeTargetSet` preserves the tag-queue invariant. -/
theorem inv_writeTargetSet (c : Config) (st : CacheState) (a : Nat) (w : List Nat)
    (assoc : Nat) (hassoc : 0 < assoc)
    (hInv : SetInv assoc (st.sets.getD (split_address c a).2.1 default)) :
    SetInv assoc (writeTargetSet c st a w) := by
  simp only [writeTargetSet]
  cases hbi : (find_block_index ((st.sets.getD (split_address c a).2.1 default).blocks)
      ((split_address c a).2.2 : Int) == -1)
  · rw [if_neg (by simp)]
    exact inv_set_write_to_cache assoc c.write_back st.mem _ a _ w hInv
  · have heq : find_block_index ((st.sets.getD (split_address c a).2.1 default).blocks)
        ((split_address c a).2.2 : Int) = -1 := by
      simpa using hbi
    rw [if_pos rfl]
    exact inv_set_write_to_cache assoc c.write_back _ _ a _ w
      (inv_set_read_from_memory assoc c.write_back c.block_size st.mem _ a _ hInv
        (Int.natCast_nonneg _) hassoc ((find_block_index_eq_neg_one_iff _ _).mp heq))

/-- One driver step preserves the tag-queue invariant of every set. -/
theorem inv_step (c : Config) (st : CacheState) (op : Op) (assoc : Nat)
    (hassoc : 0 < assoc) (h : ∀ s ∈ st.sets, SetInv assoc s) :
    ∀ s ∈ (step c st op).sets, SetInv assoc s := by
  cases op with
  | read a =>
    by_cases hv : simValid c a = true
    · simp only [step, if_pos hv]
      intro s' hs'
      rw [cacheRead_sets_eq] at hs'
      rcases mem_set_cases _ _ _ _ hs' with h1 | ⟨hlt, rfl⟩
      · exact h _ h1
      · exact inv_readTargetSet c st a.toNat assoc hassoc
          (h _ (getD_mem_of_lt _ _ _ hlt))
    · simp only [step, if_neg hv]; exact h
  | write a w =>
    by_cases hv : simValid c a = true
    · simp only [step, if_pos hv]
      intro s' hs'
      rw [cacheWrite_sets_eq] at hs'
      rcases mem_set_cases _ _ _ _ hs' with h1 | ⟨hlt, rfl⟩
      · exact h _ h1
      · exact inv_writeTargetSet c st a.toNat _ assoc hassoc
          (h _ (getD_mem_of_lt _ _ _ hlt))
    · simp only [step, if_neg hv]; exact h

theorem occupiedTags_replicate_init (n bs : Nat) :
    occupiedTags (List.replicate n (CacheBlock.init bs)) = [] := by
  induction n with
  | zero => rfl
  | succ m ih =>
    rw [List.replicate_succ]
    show occupiedTags (CacheBlock.init bs :: List.replicate m (CacheBlock.init bs)) = []
    unfold occupiedTags at ih ⊢
    rw [List.filter_cons]
    simp only [CacheBlock.init, Bool.false_eq_true, if_false]
    exact ih

/-- A freshly initialized set satisfies the tag-queue invariant. -/
theorem inv_init_set (assoc bs i : Nat) : SetInv assoc (SetState.init assoc bs i) := by
  refine ⟨by simp [SetState.init], by simp [SetState.init], assoc, [], ?_, by simp, by simp, ?_⟩
  · show List.replicate assoc (-1) = List.replicate assoc (-1) ++ []
    rw [List.append_nil]
  · show List.Perm [] (occupiedTags (List.replicate assoc (CacheBlock.init bs)))
    rw [occupiedTags_replicate_init]

end CacheSim

namespace CacheSim

/-- Claim C9 (amended): after every sequence of accepted operations, in
any configuration whose cache size divides exactly into
`associativity * num_sets` blocks, each set's replacement tracker is a
sequence of fixed length equal to the associativity, consisting of a
block of `-1` sentinels followed by exactly the tags of that set's
currently-occupied blocks (as a permutation), with no tag appearing
twice; position encodes the order of tracker touches (each touch places
the touched tag at the last slot) — but a write hit does not touch the
tracker, so the last slot need not be the most-recently-USED tag. -/
theorem tracker_structural_invariant (c : Config) (ops : List Op)
    (hassoc : 0 < c.associativity)
    (hdiv : c.num_blocks = c.associativity * c.num_sets) :
    (∀ s ∈ (run c ops).sets, SetInv c.associativity s) ∧
    (∀ (q : List Int) (t : Int), (update_queue q t).getLast? = some t) := by
  constructor
  · have hinit : ∀ s ∈ (initSim c).sets, SetInv c.associativity s := by
      intro s hs
      simp only [initSim, mkCache, List.mem_map] at hs
      obtain ⟨i, hi, rfl⟩ := hs
      have hns : 0 < c.num_sets := by
        rcases Nat.eq_zero_or_pos c.num_sets with h0 | h0
        · rw [h0] at hi
          simp at hi
        · exact h0
      have hnb : c.num_blocks_per_set = c.associativity := by
        rw [Config.num_blocks_per_set, hdiv, Nat.mul_div_cancel _ hns]
      rw [hnb]
      exact inv_init_set c.associativity c.block_size i
    have hfold : ∀ (l : List Op) (st : CacheState),
        (∀ s ∈ st.sets, SetInv c.associativity s) →
        ∀ s ∈ (l.foldl (step c) st).sets, SetInv c.associativity s := by
      intro l
      induction l with
      | nil => intro st h; exact h
      | cons op rest ih =>
        intro st h
        exact ih (step c st op) (inv_step c st op c.associativity hassoc h)
    exact hfold ops (initSim c) hinit
  · intro q t
    unfold update_queue
    split <;> exact List.getLast?_concat _

/-- Claim C9 (counterexample): with the 2-way `cfgB`, after `read(32)`
(tag 1), `read(0)` (tag 0) and the write hit `write(32, 6)` — whose tag
1 is the most recently used — the tracker reads `[1, 0]`: the last index
holds 0, not the most-recently-used tag 1, refuting "the last index is
always the most-recently-used". -/
theorem tracker_last_not_mru_cex :
    ((run cfgB [Op.read 32, Op.read 0, Op.write 32 6]).sets.getD 0 default).queue = [1, 0] ∧
    ((run cfgB [Op.read 32, Op.read 0, Op.write 32 6]).sets.getD 0
      default).queue.getLast? = some 0 ∧ (0 : Int) ≠ 1 := by
  refine ⟨by decide, by decide, by decide⟩

/-- Witness for `tracker_structural_invariant` at `cfgB` with a trace
exercising fill, hit and eviction. -/
theorem tracker_structural_invariant_witness :
    (0 < cfgB.associativity ∧
     cfgB.num_blocks = cfgB.associativity * cfgB.num_sets) ∧
    ((∀ s ∈ (run cfgB [Op.read 0, Op.write 32 9, Op.read 64]).sets,
        SetInv cfgB.associativity s) ∧
     (∀ (q : List Int) (t : Int), (update_queue q t).getLast? = some t)) :=
  ⟨⟨by decide, by decide⟩,
   tracker_structural_invariant cfgB [Op.read 0, Op.write 32 9, Op.read 64]
     (by decide) (by decide)⟩

end CacheSim
